import Mathlib

/-!
Verification of the natural-language specification of
`similarity_search/src/method/pivot_neighb_horder_hashpiv_invindx.cc`
(the NAPP index with higher-order pivot combinations) against a shallow
embedding of that source file.

Machine integers of the source (`size_t`, `unsigned`, `uint32_t`, `IdType`)
are embedded as `Nat`; all the quantities involved (object ids, bucket ids,
counts, thresholds) are small and non-negative in the source, so no overflow
wrapping is modelled.  Fallible code (`throw`, `CHECK`, `CHECK_MSG`) is
embedded with `Except String`.
-/

/-! ### Error messages (abbreviated from the source; no message text is load-bearing) -/

def synonymPrefixMsg : String := "One should not specify both parameters numPrefix and numPivotIndex"

def prefixGtPivotMsg : String := "numPrefix should be <= numPivot"

def illegalCombMsg : String := "Illegal number of pivots in the combinations: must be >0 and <=3"

def unknownParamMsg : String := "unknown parameter"

def onlyTwoCombMsg : String := "Only two pivot combinations are currently supported"

def synonymMinTimesMsg : String := "One should not specify both parameters minTimes and numPivotSearch"

def prefixSearchGtPivotMsg : String := "numPrefixSearch should be <= numPivot"

def unknownAlgMsg : String := "Unknown value of parameter for the inverted file processing algorithm"

def checkPrefixSizeMsg : String := "CHECK failed: permPrefixSize < perm.size()"

def checkCidMsg : String := "bug cid >= maxPostQty"

def checkIdivMsg : String := "CHECK failed: idiv < posting_lists_.size()"

def checkPrefixSearchMsg : String := "CHECK failed: num_prefix_search_ >= 1"

def cannotOpenWriteMsg : String := "Cannot open file for writing"

def cannotOpenReadMsg : String := "Cannot open file for reading"

def notUpdatedMsg : String := "This was never properly updated, likely it does not work!"

/-! ### Parameter names (string constants, so that no string literal follows a name) -/

def kNumPivot : String := "numPivot"

def kNumPivotIndex : String := "numPivotIndex"

def kNumPrefix : String := "numPrefix"

def kIndexThreadQty : String := "indexThreadQty"

def kDisablePivotIndex : String := "disablePivotIndex"

def kHashTrickDim : String := "hashTrickDim"

def kPivotFile : String := "pivotFile"

def kSkipVal : String := "skipVal"

def kPivotCombQty : String := "pivotCombQty"

def kPrintPivotStat : String := "printPivotStat"

def kSkipChecking : String := "skipChecking"

def kMinTimes : String := "minTimes"

def kNumPivotSearch : String := "numPivotSearch"

def kNumPrefixSearch : String := "numPrefixSearch"

/-- Modelled from the spec: the tags of the four inverted-file processing
algorithms (the `PERM_PROC_*` string constants are declared outside `src/`). -/
def permProcFastScan : String := "scan"

def permProcStoreSort : String := "store_sort"

def permProcMerge : String := "merge"

def permProcPriorQueue : String := "pqueue"

/-! ### Parameter manager -/

/-- Parameters are an association list from names to (numeric) values.
Boolean- and string-valued parameters of the source that no claim depends on
are carried as numbers as well. -/
def hasParam (ps : List (String × Nat)) (k : String) : Bool :=
  (ps.lookup k).isSome

/-- Modelled from the spec: `AnyParamManager.GetParamOptional` (declared
outside `src/`): a parameter takes its supplied value, or the given default
value when it is absent. -/
def getParamOpt (ps : List (String × Nat)) (k : String) (dflt : Nat) : Nat :=
  (ps.lookup k).getD dflt

/-! ### Combination-key encoding -/

/-- Modelled from the spec: `PostingListIndex` on two pivot ids (declared in
the method header, absent from `src/`): the unordered-pair index
PAIR(x, y) = max·(max−1)/2 + min. -/
def PostingListIndex (x y : Nat) : Nat :=
  max x y * (max x y - 1) / 2 + min x y

/-- Modelled from the spec: `PostingListIndex` on three pivot ids (declared in
the method header, absent from `src/`): the canonical unordered-triple
(tetrahedral) index. -/
def PostingListIndex3 (x y z : Nat) : Nat :=
  let c := max x (max y z)
  let a := min x (min y z)
  let b := x + y + z - c - a
  c * (c - 1) * (c - 2) / 6 + b * (b - 1) / 2 + a

/-- Modelled from the spec: `getPostQtys` (declared outside `src/`): the
number `maxPostQty` of buckets as a function of the combination order, the
skip value and the number of pivots: ⌈N/s⌉, ⌈N·(N−1)/(2s)⌉, ⌈N·(N−1)·(N−2)/(6s)⌉. -/
def getPostQtys (pivot_comb_qty_ skip_val_ num_pivot_ : Nat) : Nat :=
  if pivot_comb_qty_ = 1 then
    (num_pivot_ + skip_val_ - 1) / skip_val_
  else if pivot_comb_qty_ = 2 then
    (num_pivot_ * (num_pivot_ - 1) + 2 * skip_val_ - 1) / (2 * skip_val_)
  else
    (num_pivot_ * (num_pivot_ - 1) * (num_pivot_ - 2) + 6 * skip_val_ - 1) / (6 * skip_val_)

/-- `genPivotCombIds` (source lines 483-549).  Emits the combination keys of
the prefix of length `permPrefixSize` of the permutation `perm` into a list
(the source writes them into a growable buffer and returns the count; here the
returned list carries both: its entries and its length). -/
def genPivotCombIds (pivot_comb_qty_ skip_val_ : Nat)
    (perm : List Nat) (permPrefixSize : Nat) : Except String (List Nat) :=
  if pivot_comb_qty_ = 0 ∨ 3 < pivot_comb_qty_ then
    Except.error illegalCombMsg
  else if pivot_comb_qty_ = 1 then
    if permPrefixSize < perm.length then
      Except.ok ((perm.take permPrefixSize).filterMap (fun index =>
        if index % skip_val_ = 0 then some (index / skip_val_) else none))
    else
      Except.error checkPrefixSizeMsg
  else if pivot_comb_qty_ = 2 then
    Except.ok ((List.range permPrefixSize).flatMap (fun j =>
      (List.range j).filterMap (fun k =>
        let index := PostingListIndex (perm.getD j 0) (perm.getD k 0)
        if index % skip_val_ = 0 then some (index / skip_val_) else none)))
  else
    Except.ok ((List.range permPrefixSize).flatMap (fun j =>
      (List.range j).flatMap (fun k =>
        (List.range k).filterMap (fun l =>
          let index := PostingListIndex3 (perm.getD j 0) (perm.getD k 0) (perm.getD l 0)
          if index % skip_val_ = 0 then some (index / skip_val_) else none))))

/-! ### Build-time configuration (`CreateIndex`, lines 67-102) -/

structure IndexConfig where
  num_pivot_ : Nat
  num_prefix_ : Nat
  skip_val_ : Nat
  pivot_comb_qty_ : Nat
deriving DecidableEq

def indexParamKeys : List String :=
  [kNumPivot, kNumPivotIndex, kNumPrefix, kIndexThreadQty, kDisablePivotIndex,
   kHashTrickDim, kPivotFile, kSkipVal, kPivotCombQty, kPrintPivotStat]

/-- The parameter-validation part of `CreateIndex` (source lines 67-102), in
source order: the numPrefix/numPivotIndex synonym guard, the
numPrefix ≤ numPivot check, the 1-to-3 range check on pivotCombQty,
`CheckUnused` (unknown-key rejection), and finally the
`CHECK_MSG(pivot_comb_qty_ == 2, ...)` of line 102.
(`ResetQueryTimeParams`, called between the last two, cannot fail on an empty
parameter set.) -/
def CreateIndexConfig (ps : List (String × Nat)) : Except String IndexConfig :=
  let num_pivot_ := getParamOpt ps kNumPivot 512
  if hasParam ps kNumPivotIndex && hasParam ps kNumPrefix then
    Except.error synonymPrefixMsg
  else
    let np0 := getParamOpt ps kNumPivotIndex 32
    let num_prefix_ := getParamOpt ps kNumPrefix np0
    if num_pivot_ < num_prefix_ then
      Except.error prefixGtPivotMsg
    else
      let skip_val_ := getParamOpt ps kSkipVal 1
      let pivot_comb_qty_ := getParamOpt ps kPivotCombQty 2
      if pivot_comb_qty_ = 0 ∨ 3 < pivot_comb_qty_ then
        Except.error illegalCombMsg
      else if !(ps.all (fun kv => indexParamKeys.contains kv.1)) then
        Except.error unknownParamMsg
      else if pivot_comb_qty_ ≠ 2 then
        Except.error onlyTwoCombMsg
      else
        Except.ok (IndexConfig.mk num_pivot_ num_prefix_ skip_val_ pivot_comb_qty_)

/-! ### Query-time configuration (`SetQueryTimeParams`, lines 267-313) -/

inductive InvProcAlg where
  | kScan
  | kStoreSort
  | kMerge
  | kPriorQueue
deriving DecidableEq

structure QueryConfig where
  skip_checking_ : Bool
  inv_proc_alg_ : InvProcAlg
  min_times_ : Nat
  num_prefix_search_ : Nat
deriving DecidableEq

def queryParamKeys : List String :=
  [kSkipChecking, kMinTimes, kNumPivotSearch, kNumPrefixSearch]

/-- `SetQueryTimeParams` (source lines 267-313).  The `invProcAlg` string
parameter is passed separately (`none` = absent, so the default
`PERM_PROC_STORE_SORT` applies).  Note the two consecutive lookups into
`min_times_` (source lines 280-281): both pass the literal default `2`, so
when `numPivotSearch` is absent the second lookup overwrites whatever value
`minTimes` supplied. -/
def SetQueryTimeParams (cfg : IndexConfig) (ps : List (String × Nat))
    (invProcAlgOpt : Option String) : Except String QueryConfig :=
  let skip_checking_ := getParamOpt ps kSkipChecking 0 ≠ 0
  let inv_proc_alg := invProcAlgOpt.getD permProcStoreSort
  if hasParam ps kMinTimes && hasParam ps kNumPivotSearch then
    Except.error synonymMinTimesMsg
  else
    let min_times_ := getParamOpt ps kMinTimes 2
    let min_times_ := getParamOpt ps kNumPivotSearch 2
    let num_prefix_search_ := getParamOpt ps kNumPrefixSearch (IndexConfig.num_prefix_ cfg)
    if IndexConfig.num_pivot_ cfg < num_prefix_search_ then
      Except.error prefixSearchGtPivotMsg
    else
      let algTag : Except String InvProcAlg :=
        if inv_proc_alg = permProcFastScan then Except.ok InvProcAlg.kScan
        else if inv_proc_alg = permProcStoreSort then Except.ok InvProcAlg.kStoreSort
        else if inv_proc_alg = permProcMerge then Except.ok InvProcAlg.kMerge
        else if inv_proc_alg = permProcPriorQueue then Except.ok InvProcAlg.kPriorQueue
        else Except.error unknownAlgMsg
      match algTag with
      | Except.error e => Except.error e
      | Except.ok alg =>
        if !(ps.all (fun kv => queryParamKeys.contains kv.1)) then
          Except.error unknownParamMsg
        else
          Except.ok (QueryConfig.mk skip_checking_ alg min_times_ num_prefix_search_)

/-! ### Persistence (`SaveIndex` lines 333-373, `LoadIndex` lines 375-480) -/

/-- `SaveIndex` (source lines 333-373).  `canOpen` models whether the output
file at the location can be opened.  When it can, the function reaches the
unconditional `throw runtime_error(...)` of line 339 before executing any
`WriteField`; the entire serialization code below it is unreachable, so the
returned line list of a successful save is never produced and the index state
is returned untouched on every path. -/
def SaveIndex (st : IndexConfig) (canOpen : Bool) :
    IndexConfig × Except String (List String) :=
  if !canOpen then (st, Except.error cannotOpenWriteMsg)
  else (st, Except.error notUpdatedMsg)

/-- `LoadIndex` (source lines 375-480).  When the input file can be opened,
the unconditional `throw runtime_error(...)` of line 381 is reached before any
`ReadField`; the deserialization code below it is unreachable, so the index
state is returned untouched on every path. -/
def LoadIndex (st : IndexConfig) (canOpen : Bool) :
    IndexConfig × Except String Unit :=
  if !canOpen then (st, Except.error cannotOpenReadMsg)
  else (st, Except.error notUpdatedMsg)

/-! ### Parallel index build (`CreateIndex`, lines 138-201) -/

/-- One indexing thread filling its private posting lists (the body of the
`ParallelFor` of source lines 161-194): for each assigned object id, in
processing order, the thread encodes the combination keys of the object's
permutation prefix of length `num_prefix_`, checks `cid < maxPostQty_`
(line 177), and appends the object id to its private list for each key.
`perms` supplies each object's pivot permutation (the pivot-distance oracle
and the permutation builder are external collaborators). -/
def localPostings (pivot_comb_qty_ skip_val_ num_prefix_ maxPostQty_ : Nat)
    (perms : Nat → List Nat) (objIds : List Nat) :
    Except String (List (List Nat)) :=
  objIds.foldlM (fun pls id => do
      let keys ← genPivotCombIds pivot_comb_qty_ skip_val_ (perms id) num_prefix_
      keys.foldlM (fun pls cid =>
        if cid < maxPostQty_ then
          Except.ok (pls.set cid (pls.getD cid [] ++ [id]))
        else
          Except.error checkCidMsg) pls)
    (List.replicate maxPostQty_ [])

/-- Modelled from the spec: `flushTmpPost` (declared in the method header,
absent from `src/`) appends every private bucket to the corresponding shared
bucket and clears the private one; once all threads have flushed, each shared
bucket holds the per-thread private buckets concatenated in flush order.
`threadObjs` lists each thread's objects in processing order, and its own
order models the (scheduler-chosen) order in which the threads flush. -/
def sharedPostings (pivot_comb_qty_ skip_val_ num_prefix_ maxPostQty_ : Nat)
    (perms : Nat → List Nat) (threadObjs : List (List Nat)) :
    Except String (List (List Nat)) := do
  let locals ← threadObjs.mapM
    (localPostings pivot_comb_qty_ skip_val_ num_prefix_ maxPostQty_ perms)
  Except.ok ((List.range maxPostQty_).map (fun b =>
    (locals.map (fun pls => pls.getD b [])).flatten))

/-- The final sorting pass of the build (source lines 196-201):
`ParallelFor(0, num_pivot_, ...)` sorts `posting_lists_[pivId]` for
`pivId ∈ [0, num_pivot_)` — and only those buckets. -/
def finalSortPass (num_pivot_ : Nat) (pls : List (List Nat)) : List (List Nat) :=
  (List.range pls.length).map (fun b =>
    if b < num_pivot_ then List.insertionSort (fun x y => x ≤ y) (pls.getD b [])
    else pls.getD b [])

/-- The posting lists at the end of `CreateIndex`: the parallel fill
(lines 161-194), all flushes, then the final sorting pass (lines 196-201). -/
def CreateIndexPostings (pivot_comb_qty_ skip_val_ num_pivot_ num_prefix_ : Nat)
    (perms : Nat → List Nat) (threadObjs : List (List Nat)) :
    Except String (List (List Nat)) := do
  let maxPostQty_ := getPostQtys pivot_comb_qty_ skip_val_ num_pivot_
  let shared ← sharedPostings pivot_comb_qty_ skip_val_ num_prefix_ maxPostQty_ perms threadObjs
  Except.ok (finalSortPass num_pivot_ shared)

/-! ### The four inverted-file processing algorithms (`GenSearch`, lines 612-778) -/

/-- The threshold of `GenSearch` (source lines 604-610; `SCALE_MIN_TIMES` is
defined to `true` at line 41, so the scaling block is compiled in). -/
def threshCode (pivot_comb_qty_ min_times_ num_prefix_ : Nat) : Nat :=
  if pivot_comb_qty_ = 3 then min_times_ * (num_prefix_ - 1) * (num_prefix_ - 2) / 6
  else if pivot_comb_qty_ = 2 then min_times_ * (num_prefix_ - 1) / 2
  else min_times_

/-- The posting lists a query reads: `posting_lists_[idiv]` for each emitted
combination id, in order (`posting_lists_` is indexed by bucket id). -/
def selectedLists (posting : List (List Nat)) (combIds : List Nat) :
    List (List Nat) :=
  combIds.map (fun idiv => posting.getD idiv [])

/-- One posting list bumping the per-object counter array of the `kScan`
algorithm (source lines 695-699): `counter[p] += skip_val_` for each `p` in
the list.  The counter array is embedded as a function. -/
def bumpCounter (skip_val_ : Nat) (post : List Nat) (c : Nat → Nat) : Nat → Nat :=
  post.foldl (fun c p => fun i => if i = p then c i + skip_val_ else c i) c

/-- The `kScan` algorithm (source lines 684-706): accumulate
`counter[p] += skip_val_` over every selected posting list, then emit every
object id `i < dataQty` with `counter[i] >= thresh`, in ascending id order. -/
def scanAlg (selected : List (List Nat)) (skip_val_ thresh dataQty : Nat) :
    List Nat :=
  let counter := selected.foldl (fun c post => bumpCounter skip_val_ post c) (fun _ => 0)
  (List.range dataQty).filter (fun i => thresh ≤ counter i)

/-- The run-scanning loop of the `kStoreSort` algorithm (source lines
766-775), walking the sorted buffer: `prevId` is the id of the current run and
`runLen` the number of its copies consumed so far; a run is emitted when
`skip_val_ * runLen >= thresh`. -/
def runWalkAux (skip_val_ thresh : Nat) : List Nat → Nat → Nat → List Nat
  | [], prevId, runLen =>
    if thresh ≤ skip_val_ * runLen then [prevId] else []
  | x :: rest, prevId, runLen =>
    if x = prevId then runWalkAux skip_val_ thresh rest prevId (runLen + 1)
    else
      (if thresh ≤ skip_val_ * runLen then [prevId] else []) ++
        runWalkAux skip_val_ thresh rest x 1

/-- The `kStoreSort` algorithm (source lines 735-778): concatenate the
selected posting lists into a scratch buffer, sort it ascending
(`boost::sort::spreadsort::integer_sort`, embedded as an ascending sort), and
emit one id per run of equal ids whose length passes the threshold. -/
def storeSortAlg (selected : List (List Nat)) (skip_val_ thresh : Nat) :
    List Nat :=
  match List.insertionSort (fun x y => x ≤ y) selected.flatten with
  | [] => []
  | x :: rest => runWalkAux skip_val_ thresh rest x 1

/-- Modelled from the spec: `postListUnion` (declared outside `src/`) merges a
sorted posting list into the running sorted (id, count) list: on an id match
the count grows by `skip_val_`, a new id is inserted with count `skip_val_`. -/
def postListUnion (skip_val_ : Nat) :
    List (Nat × Nat) → List Nat → List (Nat × Nat)
  | [], post => post.map (fun p => (p, skip_val_))
  | c :: cs, [] => c :: cs
  | (id, qty) :: cs, p :: ps =>
    if id < p then (id, qty) :: postListUnion skip_val_ cs (p :: ps)
    else if p < id then (p, skip_val_) :: postListUnion skip_val_ ((id, qty) :: cs) ps
    else (id, qty + skip_val_) :: postListUnion skip_val_ cs ps
termination_by cur post => cur.length + post.length

/-- The `kMerge` algorithm (source lines 708-733): fold `postListUnion` over
the selected posting lists, then emit `it.id` for every entry with
`it.qty >= thresh`. -/
def mergeAlg (selected : List (List Nat)) (skip_val_ thresh : Nat) : List Nat :=
  let res := selected.foldl (fun acc post => postListUnion skip_val_ acc post) []
  (res.filter (fun it => thresh ≤ it.2)).map (fun it => it.1)


/-- Minimum of a list of naturals, `none` on the empty list. -/
def listMinAux : List Nat → Option Nat
  | [] => none
  | x :: xs =>
    match listMinAux xs with
    | none => some x
    | some m => some (min x m)

/-- One cursor of the `kPriorQueue` algorithm advancing past the minimum id
`m` (source lines 647-674): a cursor sitting on `m` moves to its next position
and is evicted (`none`) when its list is exhausted; other cursors are kept. -/
def advCur (m : Nat) (c : List Nat) : Option (List Nat) :=
  if c.head? = some m then (if c.tail.isEmpty then none else some c.tail)
  else some c

/-- One round of cursor advancement over all cursors. -/
def advanceCursors (m : Nat) (css : List (List Nat)) : List (List Nat) :=
  css.filterMap (advCur m)

def cursorSize (css : List (List Nat)) : Nat := (css.map List.length).sum

def optLen : Option (List Nat) → Nat
  | none => 0
  | some c => c.length

/-- The document-at-a-time loop of the `kPriorQueue` algorithm (source lines
640-681): repeatedly take the smallest current id `m` over all cursors,
accumulate `skip_val_` per cursor sitting on `m` (the inner `while` of lines
647-674), emit `m` when the accumulated value passes the threshold, and
advance all those cursors. -/
def daatLoop (skip_val_ thresh : Nat) (css : List (List Nat)) : List Nat :=
  match h : listMinAux (css.filterMap List.head?) with
  | none => []
  | some m =>
    (if thresh ≤ skip_val_ * (css.countP (fun c => c.head? == some m)) then [m] else []) ++
      daatLoop skip_val_ thresh (advanceCursors m css)
termination_by cursorSize css
decreasing_by
  have hoptle : ∀ (c : List Nat), optLen (advCur m c) ≤ c.length := by
    intro c
    unfold advCur
    by_cases h0 : c.head? = some m
    · rw [if_pos h0]
      by_cases he : c.tail.isEmpty
      · rw [if_pos he]; simp [optLen]
      · rw [if_neg he]; cases c <;> simp [optLen]
    · rw [if_neg h0]; simp [optLen]
  have hoptlt : ∀ (c : List Nat), c.head? = some m → optLen (advCur m c) < c.length := by
    intro c h0
    cases c with
    | nil => simp at h0
    | cons x xs =>
      unfold advCur
      rw [if_pos h0]
      by_cases he : (x :: xs).tail.isEmpty
      · rw [if_pos he]; simp [optLen]
      · rw [if_neg he]; simp [optLen]
  have hcons : ∀ (c : List Nat) (cs : List (List Nat)),
      cursorSize (advanceCursors m (c :: cs)) =
        optLen (advCur m c) + cursorSize (advanceCursors m cs) := by
    intro c cs
    simp only [advanceCursors, List.filterMap_cons]
    cases h0 : advCur m c
    · simp [optLen]
    · simp [optLen, cursorSize]
  have hszcons : ∀ (c : List Nat) (cs : List (List Nat)),
      cursorSize (c :: cs) = c.length + cursorSize cs := by
    intro c cs
    simp [cursorSize]
  have hadvle : ∀ (cs : List (List Nat)),
      cursorSize (advanceCursors m cs) ≤ cursorSize cs := by
    intro cs
    induction cs with
    | nil => simp [advanceCursors, cursorSize]
    | cons c cs2 ih =>
      rw [hcons, hszcons]
      have := hoptle c
      omega
  have hmem : ∀ (l : List Nat) (m0 : Nat), listMinAux l = some m0 → m0 ∈ l := by
    intro l
    induction l with
    | nil => intro m0 h0; simp [listMinAux] at h0
    | cons x xs ih =>
      intro m0 h0
      rw [listMinAux] at h0
      cases h1 : listMinAux xs with
      | none =>
        rw [h1] at h0
        simp only [Option.some.injEq] at h0
        simp [← h0]
      | some m1 =>
        rw [h1] at h0
        simp only [Option.some.injEq] at h0
        by_cases hx : m0 = x
        · simp [hx]
        · have hm2 : m0 = m1 := by omega
          exact List.mem_cons_of_mem x (hm2 ▸ ih m1 h1)
  rcases List.mem_filterMap.mp (hmem _ _ h) with ⟨c0, hc0, hhead0⟩
  clear h
  revert hc0
  induction css with
  | nil => intro hc0; simp at hc0
  | cons c cs ih =>
    intro hc0
    rw [hcons, hszcons]
    rcases List.mem_cons.mp hc0 with rfl | hmem2
    · have h1 := hoptlt c0 hhead0
      have h2 := hadvle cs
      omega
    · have h1 := hoptle c
      have h2 := ih hmem2
      omega

/-- The `kPriorQueue` algorithm (source lines 612-682): a cursor is created
for every non-empty selected posting list (line 629), then the
document-at-a-time loop runs. -/
def priorQueueAlg (selected : List (List Nat)) (skip_val_ thresh : Nat) :
    List Nat :=
  daatLoop skip_val_ thresh (selected.filter (fun post => !post.isEmpty))

/-- `GenSearch` (source lines 551-811), sequentially: compute the query
combination ids from the query permutation prefix of length
`num_prefix_search_`, compute the threshold, check
`CHECK(num_prefix_search_ >= 1)` (present in every algorithm branch) and
`CHECK_MSG(idiv < posting_lists_.size())`, run the selected algorithm, and
return the candidate list (the re-ranking of lines 782-785 feeds each
candidate to the query callback and is modelled as returning the candidates). -/
def GenSearch (icfg : IndexConfig) (qcfg : QueryConfig)
    (posting : List (List Nat)) (perm_q : List Nat) (dataQty : Nat) :
    Except String (List Nat) := do
  let combIds ← genPivotCombIds (IndexConfig.pivot_comb_qty_ icfg)
    (IndexConfig.skip_val_ icfg) perm_q (QueryConfig.num_prefix_search_ qcfg)
  let thresh := threshCode (IndexConfig.pivot_comb_qty_ icfg)
    (QueryConfig.min_times_ qcfg) (IndexConfig.num_prefix_ icfg)
  if QueryConfig.num_prefix_search_ qcfg = 0 then
    Except.error checkPrefixSearchMsg
  else if !(combIds.all (fun idiv => decide (idiv < posting.length))) then
    Except.error checkIdivMsg
  else
    let selected := selectedLists posting combIds
    match QueryConfig.inv_proc_alg_ qcfg with
    | InvProcAlg.kScan =>
      Except.ok (scanAlg selected (IndexConfig.skip_val_ icfg) thresh dataQty)
    | InvProcAlg.kStoreSort =>
      Except.ok (storeSortAlg selected (IndexConfig.skip_val_ icfg) thresh)
    | InvProcAlg.kMerge =>
      Except.ok (mergeAlg selected (IndexConfig.skip_val_ icfg) thresh)
    | InvProcAlg.kPriorQueue =>
      Except.ok (priorQueueAlg selected (IndexConfig.skip_val_ icfg) thresh)

/-! ### The candidate-set characterization shared by the four algorithms -/

/-- The accumulated count of the spec: the sum of `skip_val_` per posting-list
hit of object `v` over the selected lists. -/
def accumCount (selected : List (List Nat)) (skip_val_ v : Nat) : Nat :=
  skip_val_ * selected.flatten.count v

/-- Total quantity stored for key `v` in an (id, qty) list (the sum over all
entries with that id; with distinct ids this is the entry's qty, or 0). -/
def accQty (acc : List (Nat × Nat)) (v : Nat) : Nat :=
  ((acc.filter (fun e => e.1 == v)).map Prod.snd).sum


/-- The k = 2 key multiset as the spec words it (for the refinement check of
the combination-key encoder): one key idx / skip_val per unordered pair
0 ≤ a < b < P with idx = PAIR(perm[b], perm[a]) divisible by skip_val. -/
def pairKeySpec (skip_val_ : Nat) (perm : List Nat) (P : Nat) : Multiset Nat :=
  (((Finset.range P) ×ˢ (Finset.range P)).filter (fun ab => ab.1 < ab.2)).val.filterMap
    (fun ab =>
      if PostingListIndex (perm.getD ab.2 0) (perm.getD ab.1 0) % skip_val_ = 0
      then some (PostingListIndex (perm.getD ab.2 0) (perm.getD ab.1 0) / skip_val_)
      else none)

/-! ### Lemmas -/

lemma cursorSize_cons (c : List Nat) (cs : List (List Nat)) :
    cursorSize (c :: cs) = c.length + cursorSize cs := by
  simp [cursorSize]

lemma cursorSize_advance_cons (m : Nat) (c : List Nat) (cs : List (List Nat)) :
    cursorSize (advanceCursors m (c :: cs)) =
      optLen (advCur m c) + cursorSize (advanceCursors m cs) := by
  simp only [advanceCursors, List.filterMap_cons]
  cases h : advCur m c
  · simp [optLen]
  · simp [optLen, cursorSize]

lemma optLen_advCur_le (m : Nat) (c : List Nat) :
    optLen (advCur m c) ≤ c.length := by
  unfold advCur
  by_cases h : c.head? = some m
  · rw [if_pos h]
    by_cases he : c.tail.isEmpty
    · rw [if_pos he]; simp [optLen]
    · rw [if_neg he]
      cases c <;> simp [optLen]
  · rw [if_neg h]; simp [optLen]

lemma optLen_advCur_lt (m : Nat) (c : List Nat) (h : c.head? = some m) :
    optLen (advCur m c) < c.length := by
  cases c with
  | nil => simp at h
  | cons x xs =>
    unfold advCur
    rw [if_pos h]
    by_cases he : (x :: xs).tail.isEmpty
    · rw [if_pos he]; simp [optLen]
    · rw [if_neg he]; simp [optLen]

lemma cursorSize_advance_le (m : Nat) (css : List (List Nat)) :
    cursorSize (advanceCursors m css) ≤ cursorSize css := by
  induction css with
  | nil => simp [advanceCursors, cursorSize]
  | cons c cs ih =>
    rw [cursorSize_advance_cons, cursorSize_cons]
    have := optLen_advCur_le m c
    omega

lemma cursorSize_advance_lt (m : Nat) (css : List (List Nat))
    (h : ∃ c ∈ css, c.head? = some m) :
    cursorSize (advanceCursors m css) < cursorSize css := by
  induction css with
  | nil => simp at h
  | cons c cs ih =>
    rw [cursorSize_advance_cons, cursorSize_cons]
    rcases h with ⟨c0, hc0, hhead⟩
    rcases List.mem_cons.mp hc0 with rfl | hmem
    · have h1 := optLen_advCur_lt m c0 hhead
      have h2 := cursorSize_advance_le m cs
      omega
    · have h1 := optLen_advCur_le m c
      have h2 := ih ⟨c0, hmem, hhead⟩
      omega

lemma listMinAux_mem {l : List Nat} {m : Nat} (h : listMinAux l = some m) :
    m ∈ l := by
  induction l generalizing m with
  | nil => simp [listMinAux] at h
  | cons x xs ih =>
    rw [listMinAux] at h
    cases h0 : listMinAux xs with
    | none =>
      rw [h0] at h
      simp only [Option.some.injEq] at h
      simp [← h]
    | some m0 =>
      rw [h0] at h
      simp only [Option.some.injEq] at h
      by_cases hx : m = x
      · simp [hx]
      · have hm : m = m0 := by omega
        exact List.mem_cons_of_mem x (hm ▸ ih h0)

lemma listMinAux_le {l : List Nat} {m : Nat} (h : listMinAux l = some m) :
    ∀ x ∈ l, m ≤ x := by
  induction l generalizing m with
  | nil => simp
  | cons x xs ih =>
    rw [listMinAux] at h
    intro y hy
    cases h0 : listMinAux xs with
    | none =>
      rw [h0] at h
      simp only [Option.some.injEq] at h
      have : xs = [] := by
        cases xs with
        | nil => rfl
        | cons a b =>
          rw [listMinAux] at h0
          cases h1 : listMinAux b <;> rw [h1] at h0 <;> simp at h0
      subst this
      simp only [List.mem_singleton] at hy
      omega
    | some m0 =>
      rw [h0] at h
      simp only [Option.some.injEq] at h
      rcases List.mem_cons.mp hy with rfl | hmem
      · omega
      · have := ih h0 y hmem
        omega

lemma listMinAux_none {l : List Nat} (h : listMinAux l = none) : l = [] := by
  cases l with
  | nil => rfl
  | cons x xs =>
    rw [listMinAux] at h
    cases h0 : listMinAux xs <;> rw [h0] at h <;> simp at h
lemma sorted_lt_eq_of_mem_iff :
    ∀ {A B : List Nat}, A.Sorted (· < ·) → B.Sorted (· < ·) →
      (∀ v, v ∈ A ↔ v ∈ B) → A = B := by
  intro A
  induction A with
  | nil =>
    intro B _ _ hmem
    cases B with
    | nil => rfl
    | cons b bs =>
      exfalso
      have := (hmem b).mpr (List.mem_cons_self b bs)
      simp at this
  | cons a as ih =>
    intro B hA hB hmem
    cases B with
    | nil =>
      exfalso
      have := (hmem a).mp (List.mem_cons_self a as)
      simp at this
    | cons b bs =>
      have hAc := List.sorted_cons.mp hA
      have hBc := List.sorted_cons.mp hB
      have hab : a = b := by
        have ha : a ∈ b :: bs := (hmem a).mp (List.mem_cons_self a as)
        have hb : b ∈ a :: as := (hmem b).mpr (List.mem_cons_self b bs)
        rcases List.mem_cons.mp ha with h1 | h1
        · exact h1
        · rcases List.mem_cons.mp hb with h2 | h2
          · exact h2.symm
          · have hx := hBc.1 a h1
            have hy := hAc.1 b h2
            omega
      subst hab
      congr 1
      apply ih hAc.2 hBc.2
      intro v
      constructor
      · intro hv
        have hav := hAc.1 v hv
        have hvB : v ∈ a :: bs := (hmem v).mp (List.mem_cons_of_mem a hv)
        rcases List.mem_cons.mp hvB with h1 | h1
        · omega
        · exact h1
      · intro hv
        have hav := hBc.1 v hv
        have hvA : v ∈ a :: as := (hmem v).mpr (List.mem_cons_of_mem a hv)
        rcases List.mem_cons.mp hvA with h1 | h1
        · omega
        · exact h1

/-- A strictly sorted list is bounded below by its head. -/
lemma sorted_lt_head_le {y : Nat} {ys : List Nat} (h : (y :: ys).Sorted (· < ·)) :
    ∀ x ∈ y :: ys, y ≤ x := by
  intro x hx
  rcases List.mem_cons.mp hx with rfl | hx
  · exact Nat.le_refl x
  · exact Nat.le_of_lt ((List.sorted_cons.mp h).1 x hx)

/-! ### `kScan` characterization -/

lemma bumpCounter_apply (s : Nat) (post : List Nat) (c : Nat → Nat) (i : Nat) :
    bumpCounter s post c i = c i + s * post.count i := by
  induction post generalizing c with
  | nil => simp [bumpCounter]
  | cons p ps ih =>
    show bumpCounter s ps (fun j => if j = p then c j + s else c j) i = _
    rw [ih, List.count_cons]
    by_cases h : i = p
    · subst h
      simp only [if_pos rfl, beq_self_eq_true, if_true]
      ring
    · have hbeq : (p == i) = false := by
        simp only [beq_eq_false_iff_ne, ne_eq]
        omega
      rw [hbeq, if_neg h, if_neg (by simp)]
      simp

lemma scan_counter_apply (s : Nat) (sel : List (List Nat)) (c : Nat → Nat) (i : Nat) :
    (sel.foldl (fun c post => bumpCounter s post c) c) i =
      c i + s * sel.flatten.count i := by
  induction sel generalizing c with
  | nil => simp
  | cons post rest ih =>
    simp only [List.foldl_cons, List.flatten_cons]
    rw [ih, bumpCounter_apply, List.count_append]
    ring

lemma scanAlg_mem (sel : List (List Nat)) (s th d v : Nat) :
    v ∈ scanAlg sel s th d ↔ v < d ∧ th ≤ accumCount sel s v := by
  unfold scanAlg accumCount
  simp only [List.mem_filter, List.mem_range, decide_eq_true_eq]
  rw [scan_counter_apply]
  simp

lemma scanAlg_sorted (sel : List (List Nat)) (s th d : Nat) :
    (scanAlg sel s th d).Sorted (· < ·) := by
  unfold scanAlg
  exact List.Pairwise.sublist (List.filter_sublist _) (List.pairwise_lt_range d)

/-! ### `kStoreSort` characterization -/

lemma count_cons_self_nat (v : Nat) (l : List Nat) :
    (v :: l).count v = l.count v + 1 := by
  simp [List.count_cons]

lemma count_cons_ne_nat {v x : Nat} (l : List Nat) (h : v ≠ x) :
    (x :: l).count v = l.count v := by
  rw [List.count_cons]
  have hbeq : (x == v) = false := by
    simp only [beq_eq_false_iff_ne, ne_eq]
    omega
  rw [hbeq, if_neg (by simp)]
  omega

lemma runWalkAux_spec (s th : Nat) :
    ∀ (l : List Nat) (prevId runLen : Nat),
      (prevId :: l).Sorted (· ≤ ·) → 1 ≤ runLen →
      ((∀ v, v ∈ runWalkAux s th l prevId runLen ↔
          ((v = prevId ∧ th ≤ s * (runLen + l.count prevId)) ∨
           (v ∈ l ∧ prevId < v ∧ th ≤ s * l.count v))) ∧
        (runWalkAux s th l prevId runLen).Sorted (· < ·) ∧
        (∀ v ∈ runWalkAux s th l prevId runLen, prevId ≤ v)) := by
  intro l
  induction l with
  | nil =>
    intro prevId runLen hsort hrun
    refine ⟨?_, ?_, ?_⟩
    · intro v
      unfold runWalkAux
      by_cases hc : th ≤ s * runLen
      · rw [if_pos hc]
        simp only [List.mem_singleton, List.count_nil, Nat.add_zero, List.not_mem_nil,
          false_and, or_false]
        constructor
        · intro hv; exact ⟨hv, hc⟩
        · intro hv; exact hv.1
      · rw [if_neg hc]
        simp only [List.not_mem_nil, false_iff, List.count_nil, Nat.add_zero, false_and,
          or_false, not_and]
        intro _; exact hc
    · unfold runWalkAux
      by_cases hc : th ≤ s * runLen
      · rw [if_pos hc]; simp
      · rw [if_neg hc]; simp
    · intro v hv
      unfold runWalkAux at hv
      by_cases hc : th ≤ s * runLen
      · rw [if_pos hc] at hv
        simp only [List.mem_singleton] at hv
        omega
      · rw [if_neg hc] at hv
        simp at hv
  | cons x rest ih =>
    intro prevId runLen hsort hrun
    have hsc := List.sorted_cons.mp hsort
    have hpx : prevId ≤ x := hsc.1 x (List.mem_cons_self x rest)
    have hxr : (x :: rest).Sorted (· ≤ ·) := hsc.2
    have hxrc := List.sorted_cons.mp hxr
    by_cases hx : x = prevId
    · -- the run continues
      subst hx
      have hstep : runWalkAux s th (x :: rest) x runLen =
          runWalkAux s th rest x (runLen + 1) := by
        conv_lhs => rw [runWalkAux]
        rw [if_pos rfl]
      have hsort2 : (x :: rest).Sorted (· ≤ ·) := hxr
      have := ih x (runLen + 1) hsort2 (by omega)
      refine ⟨?_, ?_, ?_⟩
      · intro v
        rw [hstep, (this.1 v)]
        rw [count_cons_self_nat]
        constructor
        · rintro (⟨rfl, hth⟩ | ⟨hmem, hlt, hth⟩)
          · refine Or.inl ⟨rfl, ?_⟩
            have harg : runLen + (rest.count v + 1) = runLen + 1 + rest.count v := by omega
            rw [harg]
            exact hth
          · refine Or.inr ⟨List.mem_cons_of_mem x hmem, hlt, ?_⟩
            rw [count_cons_ne_nat rest (by omega)]
            exact hth
        · rintro (⟨rfl, hth⟩ | ⟨hmem, hlt, hth⟩)
          · refine Or.inl ⟨rfl, ?_⟩
            have harg : runLen + 1 + rest.count v = runLen + (rest.count v + 1) := by omega
            rw [harg]
            exact hth
          · rcases List.mem_cons.mp hmem with rfl | hmem2
            · omega
            · refine Or.inr ⟨hmem2, hlt, ?_⟩
              rw [count_cons_ne_nat rest (by omega)] at hth
              exact hth
      · rw [hstep]; exact this.2.1
      · rw [hstep]; exact this.2.2
    · -- a new run starts at x
      have hpxlt : prevId < x := by omega
      have hgt : ∀ y ∈ x :: rest, prevId < y := by
        intro y hy
        rcases List.mem_cons.mp hy with rfl | hy2
        · exact hpxlt
        · have := hxrc.1 y hy2
          omega
      have hnotin : prevId ∉ x :: rest := by
        intro hmem
        have := hgt prevId hmem
        omega
      have hcount0 : (x :: rest).count prevId = 0 :=
        List.count_eq_zero_of_not_mem hnotin
      have hstep : runWalkAux s th (x :: rest) prevId runLen =
          (if th ≤ s * runLen then [prevId] else []) ++ runWalkAux s th rest x 1 := by
        conv_lhs => rw [runWalkAux]
        rw [if_neg hx]
      have hInner := ih x 1 hxr (by omega)
      refine ⟨?_, ?_, ?_⟩
      · intro v
        rw [hstep]
        rw [List.mem_append]
        have hemit : (v ∈ if th ≤ s * runLen then [prevId] else []) ↔
            (v = prevId ∧ th ≤ s * runLen) := by
          by_cases hc : th ≤ s * runLen
          · rw [if_pos hc]
            simp only [List.mem_singleton]
            constructor
            · intro hv; exact ⟨hv, hc⟩
            · intro hv; exact hv.1
          · rw [if_neg hc]
            simp only [List.not_mem_nil, false_iff, not_and]
            intro _; exact hc
        rw [hemit, hInner.1 v, hcount0, Nat.add_zero]
        constructor
        · rintro (⟨rfl, hth⟩ | ⟨hvx, hth⟩ | ⟨hmem, hlt, hth⟩)
          · exact Or.inl ⟨rfl, hth⟩
          · refine Or.inr ⟨?_, ?_, ?_⟩
            · rw [hvx]; exact List.mem_cons_self x rest
            · omega
            · rw [hvx, count_cons_self_nat]
              have hq : rest.count x + 1 = 1 + rest.count x := by omega
              rw [hq]
              exact hth
          · refine Or.inr ⟨List.mem_cons_of_mem x hmem, by omega, ?_⟩
            rw [count_cons_ne_nat rest (by omega)]
            exact hth
        · rintro (⟨rfl, hth⟩ | ⟨hmem, hlt, hth⟩)
          · exact Or.inl ⟨rfl, hth⟩
          · by_cases hvx : v = x
            · subst hvx
              refine Or.inr (Or.inl ⟨rfl, ?_⟩)
              rw [count_cons_self_nat] at hth
              have hq : rest.count v + 1 = 1 + rest.count v := by omega
              rw [hq] at hth
              exact hth
            · rcases List.mem_cons.mp hmem with rfl | hmem2
              · exact absurd rfl hvx
              · have hxv : x < v := by
                  have := hxrc.1 v hmem2
                  omega
                refine Or.inr (Or.inr ⟨hmem2, hxv, ?_⟩)
                rw [count_cons_ne_nat rest (by omega)] at hth
                exact hth
      · rw [hstep]
        by_cases hc : th ≤ s * runLen
        · rw [if_pos hc]
          rw [List.singleton_append]
          rw [List.sorted_cons]
          refine ⟨?_, hInner.2.1⟩
          intro y hy
          have := hInner.2.2 y hy
          omega
        · rw [if_neg hc, List.nil_append]
          exact hInner.2.1
      · intro v hv
        rw [hstep] at hv
        rcases List.mem_append.mp hv with hv1 | hv2
        · by_cases hc : th ≤ s * runLen
          · rw [if_pos hc] at hv1
            simp only [List.mem_singleton] at hv1
            omega
          · rw [if_neg hc] at hv1
            simp at hv1
        · have := hInner.2.2 v hv2
          omega

lemma storeSortAlg_spec (sel : List (List Nat)) (s th : Nat) :
    (storeSortAlg sel s th).Sorted (· < ·) ∧
    (∀ v, v ∈ storeSortAlg sel s th ↔
      v ∈ sel.flatten ∧ th ≤ accumCount sel s v) := by
  unfold storeSortAlg accumCount
  have hperm : List.Perm (List.insertionSort (fun x y => x ≤ y) sel.flatten) sel.flatten :=
    List.perm_insertionSort _ _
  have hsorted : (List.insertionSort (fun x y => x ≤ y) sel.flatten).Sorted (fun x y => x ≤ y) :=
    List.sorted_insertionSort _ _
  cases hM : List.insertionSort (fun x y => x ≤ y) sel.flatten with
  | nil =>
    rw [hM] at hperm
    have hflat : sel.flatten = [] := List.Perm.eq_nil hperm.symm
    constructor
    · simp
    · intro v
      simp [hflat]
  | cons x rest =>
    rw [hM] at hperm hsorted
    have hspec := runWalkAux_spec s th rest x 1 hsorted (Nat.le_refl 1)
    constructor
    · exact hspec.2.1
    · intro v
      rw [hspec.1 v]
      have hmemiff : ∀ w : Nat, w ∈ sel.flatten ↔ w ∈ x :: rest :=
        fun w => (List.Perm.mem_iff hperm).symm
      have hcnt : ∀ w : Nat, sel.flatten.count w = (x :: rest).count w :=
        fun w => (List.Perm.count_eq hperm w).symm
      constructor
      · rintro (⟨hvx, hth⟩ | ⟨hmem, hlt, hth⟩)
        · refine ⟨(hmemiff v).mpr (by rw [hvx]; exact List.mem_cons_self x rest), ?_⟩
          rw [hcnt v, hvx, count_cons_self_nat]
          have hq : rest.count x + 1 = 1 + rest.count x := by omega
          rw [hq]
          exact hth
        · refine ⟨(hmemiff v).mpr (List.mem_cons_of_mem x hmem), ?_⟩
          rw [hcnt v, count_cons_ne_nat rest (by omega)]
          exact hth
      · rintro ⟨hmem, hth⟩
        rw [hcnt v] at hth
        have hmem2 : v ∈ x :: rest := (hmemiff v).mp hmem
        by_cases hvx : v = x
        · left
          refine ⟨hvx, ?_⟩
          rw [hvx, count_cons_self_nat] at hth
          have hq : 1 + rest.count x = rest.count x + 1 := by omega
          rw [hq]
          exact hth
        · right
          have hv2 : v ∈ rest := by
            rcases List.mem_cons.mp hmem2 with h | h
            · exact absurd h hvx
            · exact h
          have hxle : x ≤ v := (List.sorted_cons.mp hsorted).1 v hv2
          refine ⟨hv2, by omega, ?_⟩
          rw [count_cons_ne_nat rest (by omega)] at hth
          exact hth

/-! ### `kMerge` characterization -/

lemma accQty_nil (v : Nat) : accQty [] v = 0 := rfl

lemma accQty_cons (id qty v : Nat) (cs : List (Nat × Nat)) :
    accQty ((id, qty) :: cs) v = (if id = v then qty else 0) + accQty cs v := by
  unfold accQty
  by_cases h : id = v
  · subst h
    rw [List.filter_cons]
    simp
  · rw [List.filter_cons]
    have hbeq : ((id, qty).1 == v) = false := by
      simp only [beq_eq_false_iff_ne, ne_eq]
      exact h
    rw [hbeq, if_neg (by simp), if_neg h]
    simp

lemma accQty_eq_zero_of_not_mem {acc : List (Nat × Nat)} {v : Nat}
    (h : v ∉ acc.map Prod.fst) : accQty acc v = 0 := by
  induction acc with
  | nil => rfl
  | cons c cs ih =>
    rcases c with ⟨id, qty⟩
    rw [accQty_cons]
    simp only [List.map_cons, List.mem_cons] at h
    push_neg at h
    rw [if_neg (fun he => h.1 he.symm), ih h.2]

lemma accQty_of_mem {acc : List (Nat × Nat)} {v q : Nat}
    (hsorted : (acc.map Prod.fst).Sorted (· < ·)) (hmem : (v, q) ∈ acc) :
    accQty acc v = q := by
  induction acc with
  | nil => simp at hmem
  | cons c cs ih =>
    rcases c with ⟨id, qty⟩
    rw [accQty_cons]
    simp only [List.map_cons] at hsorted
    have hsc := List.sorted_cons.mp hsorted
    rcases List.mem_cons.mp hmem with heq | hmem2
    · have hid : id = v := by
        have := congrArg Prod.fst heq
        simpa using this.symm
      have hqty : qty = q := by
        have := congrArg Prod.snd heq
        simpa using this.symm
      have hnot : v ∉ cs.map Prod.fst := by
        intro hin
        have hlt := hsc.1 v hin
        omega
      rw [if_pos hid, accQty_eq_zero_of_not_mem hnot]
      omega
    · have hvin : v ∈ cs.map Prod.fst :=
        List.mem_map.mpr ⟨(v, q), hmem2, rfl⟩
      have hlt := hsc.1 v hvin
      rw [if_neg (by omega), ih hsc.2 hmem2]
      simp

/-- On a strictly sorted (hence duplicate-free) list the count of any value is
1 or 0 according to membership. -/
lemma count_eq_ite_of_sorted_lt {l : List Nat} (h : l.Sorted (· < ·)) (v : Nat) :
    l.count v = if v ∈ l then 1 else 0 := by
  induction l with
  | nil => simp
  | cons x rest ih =>
    have hsc := List.sorted_cons.mp h
    by_cases hvx : v = x
    · subst hvx
      rw [count_cons_self_nat, if_pos (List.mem_cons_self v rest)]
      have hnot : v ∉ rest := by
        intro hin
        have := hsc.1 v hin
        omega
      rw [ih hsc.2, if_neg hnot]
    · rw [count_cons_ne_nat rest hvx, ih hsc.2]
      by_cases hv : v ∈ rest
      · rw [if_pos hv, if_pos (List.mem_cons_of_mem x hv)]
      · rw [if_neg hv, if_neg ?hn]
        case hn =>
          intro hin
          rcases List.mem_cons.mp hin with h1 | h1
          · exact hvx h1
          · exact hv h1

lemma accQty_map_pairs (s v : Nat) :
    ∀ (post : List Nat), post.Sorted (· < ·) →
      accQty (post.map (fun p => (p, s))) v = if v ∈ post then s else 0 := by
  intro post
  induction post with
  | nil => intro _; simp [accQty_nil]
  | cons p ps ih =>
    intro hs
    have hsc := List.sorted_cons.mp hs
    simp only [List.map_cons]
    rw [accQty_cons, ih hsc.2]
    by_cases hvp : p = v
    · subst hvp
      have hnot : p ∉ ps := by
        intro hin
        have := hsc.1 p hin
        omega
      rw [if_pos rfl, if_neg hnot, if_pos (List.mem_cons_self p ps)]
      omega
    · rw [if_neg hvp]
      by_cases hv : v ∈ ps
      · rw [if_pos hv, if_pos (List.mem_cons_of_mem p hv)]
        omega
      · have hn : v ∉ p :: ps := by
          intro hin
          rcases List.mem_cons.mp hin with h1 | h1
          · exact hvp h1.symm
          · exact hv h1
        rw [if_neg hv, if_neg hn]

lemma map_fst_pairs (s : Nat) :
    ∀ (l : List Nat), (l.map (fun p => (p, s))).map Prod.fst = l := by
  intro l
  induction l with
  | nil => rfl
  | cons a t iht =>
    rw [List.map_cons, List.map_cons, iht]

lemma postListUnion_spec (s : Nat) :
    ∀ (n : Nat) (acc : List (Nat × Nat)) (post : List Nat),
      acc.length + post.length ≤ n →
      (acc.map Prod.fst).Sorted (· < ·) → post.Sorted (· < ·) →
      (((postListUnion s acc post).map Prod.fst).Sorted (· < ·) ∧
       (∀ v, v ∈ (postListUnion s acc post).map Prod.fst ↔
          (v ∈ acc.map Prod.fst ∨ v ∈ post)) ∧
       (∀ v, accQty (postListUnion s acc post) v =
          accQty acc v + (if v ∈ post then s else 0))) := by
  intro n
  induction n with
  | zero =>
    intro acc post hlen hsa hsp
    have hacc : acc = [] := List.length_eq_zero.mp (by omega)
    have hpost : post = [] := List.length_eq_zero.mp (by omega)
    subst hacc
    subst hpost
    have hred : postListUnion s ([] : List (Nat × Nat)) [] = [] := by
      rw [postListUnion]
      simp
    rw [hred]
    refine ⟨by simp, ?_, ?_⟩
    · intro v
      simp
    · intro v
      simp [accQty_nil]
  | succ n ih =>
    intro acc post hlen hsa hsp
    match acc, post with
    | [], post =>
      have hred : postListUnion s [] post = post.map (fun p => (p, s)) := by
        cases post <;> rw [postListUnion]
      rw [hred]
      have hmf := map_fst_pairs s post
      refine ⟨?_, ?_, ?_⟩
      · rw [hmf]
        exact hsp
      · intro v
        rw [hmf]
        simp
      · intro v
        rw [accQty_map_pairs s v post hsp, accQty_nil]
        omega
    | c :: cs, [] =>
      have hred : postListUnion s (c :: cs) [] = c :: cs := by
        rw [postListUnion]
      rw [hred]
      refine ⟨hsa, ?_, ?_⟩
      · intro v
        simp
      · intro v
        simp
    | (id, qty) :: cs, p :: ps =>
      have hsa2 : (id :: cs.map Prod.fst).Sorted (· < ·) := by simpa using hsa
      have hsac := List.sorted_cons.mp hsa2
      have hspc := List.sorted_cons.mp hsp
      rcases Nat.lt_trichotomy id p with hlt | heq | hgt
      · -- id < p : keep the (id, qty) entry
        have hred : postListUnion s ((id, qty) :: cs) (p :: ps) =
            (id, qty) :: postListUnion s cs (p :: ps) := by
          rw [postListUnion]
          rw [if_pos hlt]
        rw [hred]
        have hrec := ih cs (p :: ps) (by simp at hlen ⊢; omega) hsac.2 hsp
        refine ⟨?_, ?_, ?_⟩
        · simp only [List.map_cons]
          rw [List.sorted_cons]
          refine ⟨?_, hrec.1⟩
          intro b hb
          rcases (hrec.2.1 b).mp hb with hb1 | hb2
          · exact hsac.1 b hb1
          · rcases List.mem_cons.mp hb2 with rfl | hb3
            · exact hlt
            · have := hspc.1 b hb3
              omega
        · intro v
          simp only [List.map_cons, List.mem_cons]
          rw [hrec.2.1 v]
          simp only [List.mem_cons]
          tauto
        · intro v
          rw [accQty_cons, hrec.2.2 v, accQty_cons]
          omega
      · -- id = p : merge the two heads
        have hred : postListUnion s ((id, qty) :: cs) (p :: ps) =
            (id, qty + s) :: postListUnion s cs ps := by
          rw [postListUnion]
          rw [if_neg (by omega), if_neg (by omega)]
        rw [hred]
        have hrec := ih cs ps (by simp at hlen ⊢; omega) hsac.2 hspc.2
        refine ⟨?_, ?_, ?_⟩
        · simp only [List.map_cons]
          rw [List.sorted_cons]
          refine ⟨?_, hrec.1⟩
          intro b hb
          rcases (hrec.2.1 b).mp hb with hb1 | hb2
          · exact hsac.1 b hb1
          · have := hspc.1 b hb2
            omega
        · intro v
          simp only [List.map_cons, List.mem_cons]
          rw [hrec.2.1 v]
          constructor
          · rintro (rfl | hv1 | hv2)
            · exact Or.inl (Or.inl rfl)
            · exact Or.inl (Or.inr hv1)
            · exact Or.inr (Or.inr hv2)
          · rintro ((rfl | hv1) | (hveq | hv2))
            · exact Or.inl rfl
            · exact Or.inr (Or.inl hv1)
            · left; omega
            · exact Or.inr (Or.inr hv2)
        · intro v
          rw [accQty_cons, hrec.2.2 v, accQty_cons]
          have hpnotps : p ∉ ps := by
            intro hin
            have := hspc.1 p hin
            omega
          by_cases hvid : id = v
          · have hvps : v ∉ ps := by
              intro hin
              have := hspc.1 v hin
              omega
            rw [if_pos hvid, if_pos hvid, if_neg hvps,
              if_pos (by rw [← hvid, heq] at *; exact List.mem_cons_self p ps)]
            omega
          · rw [if_neg hvid, if_neg hvid]
            by_cases hv : v ∈ ps
            · rw [if_pos hv, if_pos (List.mem_cons_of_mem p hv)]
              omega
            · have hn : v ∉ p :: ps := by
                intro hin
                rcases List.mem_cons.mp hin with h1 | h1
                · omega
                · exact hv h1
              rw [if_neg hv, if_neg hn]
              omega
      · -- p < id : insert a fresh (p, s) entry
        have hred : postListUnion s ((id, qty) :: cs) (p :: ps) =
            (p, s) :: postListUnion s ((id, qty) :: cs) ps := by
          rw [postListUnion]
          rw [if_neg (by omega), if_pos hgt]
        rw [hred]
        have hrec := ih ((id, qty) :: cs) ps (by simp at hlen ⊢; omega) hsa hspc.2
        refine ⟨?_, ?_, ?_⟩
        · simp only [List.map_cons]
          rw [List.sorted_cons]
          refine ⟨?_, hrec.1⟩
          intro b hb
          rcases (hrec.2.1 b).mp hb with hb1 | hb2
          · simp only [List.map_cons, List.mem_cons] at hb1
            rcases hb1 with rfl | hb3
            · exact hgt
            · have := hsac.1 b hb3
              omega
          · have := hspc.1 b hb2
            omega
        · intro v
          simp only [List.map_cons, List.mem_cons]
          rw [hrec.2.1 v]
          simp only [List.map_cons, List.mem_cons]
          constructor
          · rintro (rfl | hrest)
            · exact Or.inr (Or.inl rfl)
            · rcases hrest with (h1 | h2) | h3
              · exact Or.inl (Or.inl h1)
              · exact Or.inl (Or.inr h2)
              · exact Or.inr (Or.inr h3)
          · rintro ((h1 | h2) | (h3 | h4))
            · exact Or.inr (Or.inl (Or.inl h1))
            · exact Or.inr (Or.inl (Or.inr h2))
            · exact Or.inl h3
            · exact Or.inr (Or.inr h4)
        · intro v
          rw [accQty_cons, hrec.2.2 v]
          have hpnotps : p ∉ ps := by
            intro hin
            have := hspc.1 p hin
            omega
          by_cases hvp : p = v
          · have hvps : v ∉ ps := by
              intro hin
              have := hspc.1 v hin
              omega
            rw [if_pos hvp, if_neg hvps, if_pos (by rw [← hvp]; exact List.mem_cons_self p ps)]
            omega
          · rw [if_neg hvp]
            by_cases hv : v ∈ ps
            · rw [if_pos hv, if_pos (List.mem_cons_of_mem p hv)]
              omega
            · have hn : v ∉ p :: ps := by
                intro hin
                rcases List.mem_cons.mp hin with h1 | h1
                · exact hvp h1.symm
                · exact hv h1
              rw [if_neg hv, if_neg hn]
              omega

lemma mergeFold_spec (s : Nat) :
    ∀ (sel : List (List Nat)) (acc : List (Nat × Nat)),
      (∀ l ∈ sel, l.Sorted (· < ·)) → ((acc.map Prod.fst).Sorted (· < ·)) →
      (((sel.foldl (fun acc post => postListUnion s acc post) acc).map Prod.fst).Sorted (· < ·) ∧
       (∀ v, v ∈ (sel.foldl (fun acc post => postListUnion s acc post) acc).map Prod.fst ↔
          (v ∈ acc.map Prod.fst ∨ v ∈ sel.flatten)) ∧
       (∀ v, accQty (sel.foldl (fun acc post => postListUnion s acc post) acc) v =
          accQty acc v + s * sel.flatten.count v)) := by
  intro sel
  induction sel with
  | nil =>
    intro acc _ hsa
    refine ⟨hsa, ?_, ?_⟩
    · intro v
      simp
    · intro v
      simp
  | cons post rest ih =>
    intro acc hsel hsa
    have hpost : post.Sorted (· < ·) := hsel post (List.mem_cons_self post rest)
    have hrest : ∀ l ∈ rest, l.Sorted (· < ·) :=
      fun l hl => hsel l (List.mem_cons_of_mem post hl)
    have hu := postListUnion_spec s (acc.length + post.length) acc post
      (Nat.le_refl _) hsa hpost
    simp only [List.foldl_cons, List.flatten_cons]
    have hrec := ih (postListUnion s acc post) hrest hu.1
    refine ⟨hrec.1, ?_, ?_⟩
    · intro v
      rw [hrec.2.1 v, hu.2.1 v, List.mem_append]
      tauto
    · intro v
      rw [hrec.2.2 v, hu.2.2 v, List.count_append]
      rw [count_eq_ite_of_sorted_lt hpost v]
      by_cases hv : v ∈ post
      · rw [if_pos hv, if_pos hv]
        have hmul : s * (1 + rest.flatten.count v) = s * 1 + s * rest.flatten.count v :=
          Nat.mul_add s 1 (rest.flatten.count v)
        rw [hmul]
        have hs1 : s * 1 = s := Nat.mul_one s
        rw [hs1]
        omega
      · rw [if_neg hv, if_neg hv]
        have hmul : s * (0 + rest.flatten.count v) = s * 0 + s * rest.flatten.count v :=
          Nat.mul_add s 0 (rest.flatten.count v)
        rw [hmul]
        have hs0 : s * 0 = 0 := Nat.mul_zero s
        rw [hs0]
        omega

lemma mergeAlg_spec (sel : List (List Nat)) (s th : Nat)
    (hsel : ∀ l ∈ sel, l.Sorted (· < ·)) :
    (mergeAlg sel s th).Sorted (· < ·) ∧
    (∀ v, v ∈ mergeAlg sel s th ↔
      v ∈ sel.flatten ∧ th ≤ accumCount sel s v) := by
  unfold mergeAlg accumCount
  have hfold := mergeFold_spec s sel [] hsel (by simp)
  constructor
  · have hsub : List.Sublist
        (((sel.foldl (fun acc post => postListUnion s acc post) []).filter
          (fun it => decide (th ≤ it.2))).map Prod.fst)
        ((sel.foldl (fun acc post => postListUnion s acc post) []).map Prod.fst) :=
      List.Sublist.map Prod.fst (List.filter_sublist _)
    exact List.Pairwise.sublist hsub hfold.1
  · intro v
    constructor
    · intro hv
      rcases List.mem_map.mp hv with ⟨e, he, hfst⟩
      rcases List.mem_filter.mp he with ⟨hin, hq⟩
      have hq2 : th ≤ e.2 := by simpa using hq
      have hkey : v ∈ (sel.foldl (fun acc post => postListUnion s acc post) []).map Prod.fst :=
        List.mem_map.mpr ⟨e, hin, hfst⟩
      have hfl : v ∈ sel.flatten := by
        rcases (hfold.2.1 v).mp hkey with h0 | h1
        · simp at h0
        · exact h1
      refine ⟨hfl, ?_⟩
      have he2 : e = (v, e.2) := by
        rcases e with ⟨a, b⟩
        simp only at hfst
        rw [hfst]
      have haq : accQty (sel.foldl (fun acc post => postListUnion s acc post) []) v = e.2 := by
        apply accQty_of_mem hfold.1
        rw [← he2]
        exact hin
      have := hfold.2.2 v
      rw [haq] at this
      rw [accQty_nil] at this
      omega
    · rintro ⟨hfl, hth⟩
      have hkey : v ∈ (sel.foldl (fun acc post => postListUnion s acc post) []).map Prod.fst :=
        (hfold.2.1 v).mpr (Or.inr hfl)
      rcases List.mem_map.mp hkey with ⟨e, hin, hfst⟩
      have haq : accQty (sel.foldl (fun acc post => postListUnion s acc post) []) v = e.2 := by
        apply accQty_of_mem hfold.1
        have he2 : e = (v, e.2) := by
          rcases e with ⟨a, b⟩
          simp only at hfst
          rw [hfst]
        rw [← he2]
        exact hin
      have hq : th ≤ e.2 := by
        have := hfold.2.2 v
        rw [haq, accQty_nil] at this
        omega
      refine List.mem_map.mpr ⟨e, ?_, hfst⟩
      refine List.mem_filter.mpr ⟨hin, ?_⟩
      simpa using hq

/-! ### `kPriorQueue` characterization -/

lemma count_head_m (m : Nat) :
    ∀ (css : List (List Nat)),
      (∀ c ∈ css, c.Sorted (· < ·)) →
      (∀ h ∈ css.filterMap List.head?, m ≤ h) →
      css.flatten.count m = css.countP (fun c => c.head? == some m) := by
  intro css
  induction css with
  | nil => intro _ _; rfl
  | cons c cs ih =>
    intro hsort hle
    have hsc : c.Sorted (· < ·) := hsort c (List.mem_cons_self c cs)
    have hscs : ∀ c0 ∈ cs, c0.Sorted (· < ·) :=
      fun c0 h0 => hsort c0 (List.mem_cons_of_mem c h0)
    have hlecs : ∀ h ∈ cs.filterMap List.head?, m ≤ h := by
      intro h hh
      apply hle
      simp only [List.filterMap_cons]
      cases hch : c.head? with
      | none => simpa using hh
      | some y => simp only [List.mem_cons]; right; simpa using hh
    rw [List.flatten_cons, List.count_append, List.countP_cons, ih hscs hlecs]
    have hcc : c.count m = if (c.head? == some m) = true then 1 else 0 := by
      cases c with
      | nil => simp
      | cons y ys =>
        have hsyc := List.sorted_cons.mp hsc
        have hym : m ≤ y := by
          apply hle
          simp only [List.filterMap_cons, List.head?_cons]
          simp
        by_cases hy : y = m
        · subst hy
          have hnot : y ∉ ys := by
            intro hin
            have := hsyc.1 y hin
            omega
          rw [count_cons_self_nat, List.count_eq_zero_of_not_mem hnot]
          simp
        · have hmlt : m < y := by omega
          have hnot : m ∉ y :: ys := by
            intro hin
            rcases List.mem_cons.mp hin with h1 | h1
            · omega
            · have := hsyc.1 m h1
              omega
          rw [List.count_eq_zero_of_not_mem hnot]
          have hbeq : ((y :: ys).head? == some m) = false := by
            simp only [List.head?_cons, beq_eq_false_iff_ne, ne_eq, Option.some.injEq]
            omega
          rw [hbeq]
          simp
    rw [hcc]
    cases hb : (c.head? == some m) <;> simp [hb] <;> omega

lemma advance_facts (m : Nat) :
    ∀ (css : List (List Nat)),
      (∀ c ∈ css, c.Sorted (· < ·)) →
      (∀ h ∈ css.filterMap List.head?, m ≤ h) →
      ((∀ c ∈ advanceCursors m css, c.Sorted (· < ·)) ∧
       (∀ x ∈ (advanceCursors m css).flatten, m < x) ∧
       (∀ v, v ≠ m → (advanceCursors m css).flatten.count v = css.flatten.count v) ∧
       (∀ x ∈ css.flatten, m ≤ x)) := by
  intro css
  induction css with
  | nil =>
    intro _ _
    refine ⟨?_, ?_, ?_, ?_⟩ <;> simp [advanceCursors]
  | cons c cs ih =>
    intro hsort hle
    have hsc : c.Sorted (· < ·) := hsort c (List.mem_cons_self c cs)
    have hscs : ∀ c0 ∈ cs, c0.Sorted (· < ·) :=
      fun c0 h0 => hsort c0 (List.mem_cons_of_mem c h0)
    have hlecs : ∀ h ∈ cs.filterMap List.head?, m ≤ h := by
      intro h hh
      apply hle
      simp only [List.filterMap_cons]
      cases hch : c.head? with
      | none => simpa using hh
      | some y => simp only [List.mem_cons]; right; simpa using hh
    have hrec := ih hscs hlecs
    cases hc : c with
    | nil =>
      have hadv2 : advanceCursors m ([] :: cs) = [] :: advanceCursors m cs := by
        simp [advanceCursors, List.filterMap_cons, advCur]
      rw [hadv2]
      refine ⟨?_, ?_, ?_, ?_⟩
      · intro c0 hc0
        rcases List.mem_cons.mp hc0 with rfl | h0
        · simp
        · exact hrec.1 c0 h0
      · intro x hx
        simp only [List.flatten_cons, List.nil_append] at hx
        exact hrec.2.1 x hx
      · intro v hv
        simp only [List.flatten_cons, List.nil_append]
        exact hrec.2.2.1 v hv
      · intro x hx
        simp only [List.flatten_cons, List.nil_append] at hx
        exact hrec.2.2.2 x hx
    | cons y ys =>
      have hsyc := List.sorted_cons.mp (hc ▸ hsc)
      have hym : m ≤ y := by
        apply hle
        rw [hc]
        simp only [List.filterMap_cons, List.head?_cons]
        simp
      by_cases hy : y = m
      · -- the cursor sits on the minimum and advances
        subst hy
        have hyltys : ∀ x ∈ ys, y < x := hsyc.1
        cases hys : ys with
        | nil =>
          -- the cursor is exhausted and evicted
          have hadv2 : advanceCursors y ((y :: ([] : List Nat)) :: cs) =
              advanceCursors y cs := by
            simp [advanceCursors, List.filterMap_cons, advCur]
          rw [hadv2]
          refine ⟨hrec.1, hrec.2.1, ?_, ?_⟩
          · intro v hv
            simp only [List.flatten_cons, List.singleton_append]
            rw [count_cons_ne_nat _ hv]
            exact hrec.2.2.1 v hv
          · intro x hx
            simp only [List.flatten_cons, List.singleton_append] at hx
            rcases List.mem_cons.mp hx with rfl | h1
            · omega
            · exact hrec.2.2.2 x h1
        | cons z zs =>
          have hadv2 : advanceCursors y ((y :: z :: zs) :: cs) =
              (z :: zs) :: advanceCursors y cs := by
            simp [advanceCursors, List.filterMap_cons, advCur]
          rw [hadv2]
          rw [hys] at hyltys
          have hsyzs : (z :: zs).Sorted (· < ·) := hys ▸ hsyc.2
          refine ⟨?_, ?_, ?_, ?_⟩
          · intro c0 hc0
            rcases List.mem_cons.mp hc0 with rfl | h0
            · exact hsyzs
            · exact hrec.1 c0 h0
          · intro x hx
            simp only [List.flatten_cons] at hx
            rcases List.mem_append.mp hx with h1 | h2
            · exact hyltys x h1
            · exact hrec.2.1 x h2
          · intro v hv
            simp only [List.flatten_cons, List.count_append]
            rw [count_cons_ne_nat _ hv]
            rw [hrec.2.2.1 v hv]
          · intro x hx
            simp only [List.flatten_cons, List.cons_append, List.mem_cons] at hx
            rcases hx with rfl | rfl | hx3
            · omega
            · have := hyltys x (List.mem_cons_self x zs)
              omega
            · rcases List.mem_append.mp hx3 with h2 | h3
              · have := hyltys x (List.mem_cons_of_mem z h2)
                omega
              · exact hrec.2.2.2 x h3
      · -- the cursor does not sit on the minimum and is kept
        have hmy : m < y := by omega
        have hadv2 : advanceCursors m ((y :: ys) :: cs) =
            (y :: ys) :: advanceCursors m cs := by
          simp [advanceCursors, List.filterMap_cons, advCur, hy]
        rw [hadv2]
        have hmnotc : ∀ x ∈ y :: ys, m < x := by
          intro x hx
          rcases List.mem_cons.mp hx with rfl | h1
          · omega
          · have := hsyc.1 x h1
            omega
        refine ⟨?_, ?_, ?_, ?_⟩
        · intro c0 hc0
          rcases List.mem_cons.mp hc0 with rfl | h0
          · exact hc ▸ hsc
          · exact hrec.1 c0 h0
        · intro x hx
          simp only [List.flatten_cons] at hx
          rcases List.mem_append.mp hx with h1 | h2
          · exact hmnotc x h1
          · exact hrec.2.1 x h2
        · intro v hv
          simp only [List.flatten_cons, List.count_append]
          rw [hrec.2.2.1 v hv]
        · intro x hx
          simp only [List.flatten_cons] at hx
          rcases List.mem_append.mp hx with h1 | h2
          · exact Nat.le_of_lt (hmnotc x h1)
          · exact hrec.2.2.2 x h2

lemma daatLoop_none {s th : Nat} {css : List (List Nat)}
    (h : listMinAux (css.filterMap List.head?) = none) :
    daatLoop s th css = [] := by
  rw [daatLoop]
  split
  · rfl
  · rename_i m hm
    rw [h] at hm
    simp at hm

lemma daatLoop_some {s th m : Nat} {css : List (List Nat)}
    (h : listMinAux (css.filterMap List.head?) = some m) :
    daatLoop s th css =
      (if th ≤ s * (css.countP (fun c => c.head? == some m)) then [m] else []) ++
        daatLoop s th (advanceCursors m css) := by
  rw [daatLoop]
  split
  · rename_i hm
    rw [h] at hm
    simp at hm
  · rename_i m2 hm
    rw [h] at hm
    have : m = m2 := by
      injection hm
    rw [this]

lemma daatLoop_spec (s th : Nat) :
    ∀ (n : Nat) (css : List (List Nat)), cursorSize css ≤ n →
      (∀ c ∈ css, c.Sorted (· < ·)) →
      ((daatLoop s th css).Sorted (· < ·) ∧
       (∀ v, v ∈ daatLoop s th css ↔
          (v ∈ css.flatten ∧ th ≤ s * css.flatten.count v))) := by
  intro n
  induction n with
  | zero =>
    intro css hlen hsort
    have hempty : ∀ c ∈ css, c = [] := by
      intro c hc
      have hle : c.length ≤ cursorSize css := by
        apply List.single_le_sum (by intro x hx; omega)
        exact List.mem_map.mpr ⟨c, hc, rfl⟩
      exact List.length_eq_zero.mp (by omega)
    have hheads : css.filterMap List.head? = [] := by
      apply List.eq_nil_iff_forall_not_mem.mpr
      intro a ha
      rcases List.mem_filterMap.mp ha with ⟨c, hc, hhc⟩
      rw [hempty c hc] at hhc
      simp at hhc
    have hred : daatLoop s th css = [] :=
      daatLoop_none (by rw [hheads]; rfl)
    have hflat : css.flatten = [] := by
      apply List.eq_nil_iff_forall_not_mem.mpr
      intro x hx
      rcases List.mem_flatten.mp hx with ⟨c, hc, hxc⟩
      rw [hempty c hc] at hxc
      simp at hxc
    rw [hred]
    refine ⟨by simp, ?_⟩
    intro v
    rw [hflat]
    simp
  | succ n ihn =>
    intro css hlen hsort
    cases hm : listMinAux (css.filterMap List.head?) with
    | none =>
      have hred : daatLoop s th css = [] := daatLoop_none hm
      have hheads := listMinAux_none hm
      have hempty : ∀ c ∈ css, c = [] := by
        intro c hc
        cases hcc : c with
        | nil => rfl
        | cons a t =>
          exfalso
          have hmem : a ∈ css.filterMap List.head? := by
            apply List.mem_filterMap.mpr
            exact ⟨c, hc, by rw [hcc]; rfl⟩
          rw [hheads] at hmem
          simp at hmem
      have hflat : css.flatten = [] := by
        apply List.eq_nil_iff_forall_not_mem.mpr
        intro x hx
        rcases List.mem_flatten.mp hx with ⟨c, hc, hxc⟩
        rw [hempty c hc] at hxc
        simp at hxc
      rw [hred]
      refine ⟨by simp, ?_⟩
      intro v
      rw [hflat]
      simp
    | some m =>
      have hred : daatLoop s th css =
          (if th ≤ s * (css.countP (fun c => c.head? == some m)) then [m] else []) ++
            daatLoop s th (advanceCursors m css) := daatLoop_some hm
      have hle := listMinAux_le hm
      have hmemheads := listMinAux_mem hm
      rcases List.mem_filterMap.mp hmemheads with ⟨c0, hc0, hhead0⟩
      have hsize : cursorSize (advanceCursors m css) < cursorSize css :=
        cursorSize_advance_lt m css ⟨c0, hc0, hhead0⟩
      have hadv := advance_facts m css hsort hle
      have hcount := count_head_m m css hsort hle
      have hrec := ihn (advanceCursors m css) (by omega) hadv.1
      have hmflat : m ∈ css.flatten := by
        apply List.mem_flatten.mpr
        refine ⟨c0, hc0, ?_⟩
        cases c0 with
        | nil => simp at hhead0
        | cons a t =>
          have ha : a = m := by simpa using hhead0
          rw [← ha]
          exact List.mem_cons_self a t
      have hmadv : m ∉ (advanceCursors m css).flatten := by
        intro hin
        have h1 := hadv.2.1 m hin
        omega
      refine ⟨?_, ?_⟩
      · rw [hred]
        by_cases hcond : th ≤ s * (css.countP (fun c => c.head? == some m))
        · rw [if_pos hcond, List.singleton_append, List.sorted_cons]
          refine ⟨?_, hrec.1⟩
          intro b hb
          have hbf : b ∈ (advanceCursors m css).flatten := ((hrec.2 b).mp hb).1
          exact hadv.2.1 b hbf
        · rw [if_neg hcond, List.nil_append]
          exact hrec.1
      · intro v
        rw [hred, List.mem_append]
        have hemit : (v ∈ if th ≤ s * (css.countP (fun c => c.head? == some m))
              then [m] else []) ↔
            (v = m ∧ th ≤ s * css.flatten.count m) := by
          by_cases hcond : th ≤ s * (css.countP (fun c => c.head? == some m))
          · rw [if_pos hcond]
            simp only [List.mem_singleton]
            constructor
            · intro hv
              exact ⟨hv, by rw [hcount]; exact hcond⟩
            · intro hv
              exact hv.1
          · rw [if_neg hcond]
            simp only [List.not_mem_nil, false_iff, not_and]
            intro _
            rw [hcount]
            exact hcond
        rw [hemit, hrec.2 v]
        by_cases hvm : v = m
        · subst hvm
          constructor
          · rintro (⟨_, hth⟩ | ⟨hin, _⟩)
            · exact ⟨hmflat, hth⟩
            · exact absurd hin hmadv
          · rintro ⟨_, hth⟩
            exact Or.inl ⟨rfl, hth⟩
        · constructor
          · rintro (⟨h1, _⟩ | ⟨hin, hth⟩)
            · exact absurd h1 hvm
            · have hcnt := hadv.2.2.1 v hvm
              refine ⟨?_, ?_⟩
              · have hpos : 0 < (advanceCursors m css).flatten.count v :=
                  List.count_pos_iff.mpr hin
                rw [hcnt] at hpos
                exact List.count_pos_iff.mp hpos
              · rw [← hcnt]
                exact hth
          · rintro ⟨hf, hth⟩
            right
            have hcnt := hadv.2.2.1 v hvm
            refine ⟨?_, ?_⟩
            · have hpos : 0 < css.flatten.count v := List.count_pos_iff.mpr hf
              rw [← hcnt] at hpos
              exact List.count_pos_iff.mp hpos
            · rw [hcnt]
              exact hth

lemma flatten_filter_nonempty (sel : List (List Nat)) :
    (sel.filter (fun post => !post.isEmpty)).flatten = sel.flatten := by
  induction sel with
  | nil => rfl
  | cons c cs ih =>
    cases c with
    | nil =>
      rw [List.filter_cons]
      simp only [List.isEmpty_nil, Bool.not_true]
      rw [if_neg (by simp)]
      rw [List.flatten_cons, List.nil_append, ih]
    | cons a t =>
      rw [List.filter_cons]
      simp only [List.isEmpty_cons, Bool.not_false]
      rw [if_pos (by simp)]
      rw [List.flatten_cons, List.flatten_cons, ih]

lemma priorQueueAlg_spec (sel : List (List Nat)) (s th : Nat)
    (hsel : ∀ l ∈ sel, l.Sorted (· < ·)) :
    (priorQueueAlg sel s th).Sorted (· < ·) ∧
    (∀ v, v ∈ priorQueueAlg sel s th ↔
      v ∈ sel.flatten ∧ th ≤ accumCount sel s v) := by
  unfold priorQueueAlg accumCount
  have hfsel : ∀ c ∈ sel.filter (fun post => !post.isEmpty), c.Sorted (· < ·) :=
    fun c hc => hsel c (List.mem_filter.mp hc).1
  have hspec := daatLoop_spec s th (cursorSize (sel.filter (fun post => !post.isEmpty)))
    (sel.filter (fun post => !post.isEmpty)) (Nat.le_refl _) hfsel
  rw [flatten_filter_nonempty] at hspec
  exact hspec

/-! ### Claim theorems -/

/-- Claim C1 (code bug): the final sorting pass of `CreateIndex` (lines
196-201) iterates over `[0, num_pivot_)` instead of `[0, maxPostQty_)`, so a
posting list in a bucket `≥ num_pivot_` can stay unsorted at the end of the
build.  Concrete build: `num_pivot_ = num_prefix_ = 4`, `pivot_comb_qty_ = 2`,
`skip_val_ = 1` (so `maxPostQty = 6`), two objects 0 and 1 with identical
permutations `[0, 1, 2, 3]` (every object emits every pair bucket 0..5),
assigned to two indexing threads, the thread holding object 1 flushing first.
Bucket 5 < maxPostQty then holds `[1, 0]`, which the final pass leaves
unsorted, contradicting the claim that every `PL[b]` with
`b ∈ [0, maxPostQty)` is sorted ascending at the end of the build. -/
theorem C1_build_leaves_bucket_unsorted :
    CreateIndexPostings 2 1 4 4 (fun _ => [0, 1, 2, 3]) [[1], [0]] =
      Except.ok [[0, 1], [0, 1], [0, 1], [0, 1], [1, 0], [1, 0]] ∧
    5 < getPostQtys 2 1 4 ∧
    ¬ ([1, 0] : List Nat).Sorted (· < ·) := by
  refine ⟨rfl, by decide, by decide⟩

/-- Claim C2 counterexample: `CreateIndex` rejects `pivot_comb_qty = 1`
(a value the claim says is accepted) through the
`CHECK_MSG(pivot_comb_qty_ == 2, ...)` of source line 102. -/
theorem C2_comb_one_rejected :
    CreateIndexConfig [(kPivotCombQty, 1)] = Except.error onlyTwoCombMsg := rfl

/-- Claim C2 (amended): with otherwise-default valid parameters,
`CreateIndex` accepts `pivot_comb_qty = 2` only; the values 1 and 3 pass the
range check of line 95 but are rejected by the `only two combinations` check
of line 102, and every value outside `{1, 2, 3}` is rejected by the range
check. -/
theorem C2_accepts_only_pair_comb (v : Nat) :
    ((∃ cfg, CreateIndexConfig [(kPivotCombQty, v)] = Except.ok cfg) ↔ v = 2) ∧
    (v = 1 ∨ v = 3 → CreateIndexConfig [(kPivotCombQty, v)] = Except.error onlyTwoCombMsg) ∧
    (v = 0 ∨ 3 < v → CreateIndexConfig [(kPivotCombQty, v)] = Except.error illegalCombMsg) := by
  have hred : CreateIndexConfig [(kPivotCombQty, v)] =
      (if v = 0 ∨ 3 < v then Except.error illegalCombMsg
       else if v ≠ 2 then Except.error onlyTwoCombMsg
       else Except.ok (IndexConfig.mk 512 32 1 v)) := rfl
  refine ⟨?_, ?_, ?_⟩
  · constructor
    · rintro ⟨cfg, hcfg⟩
      rw [hred] at hcfg
      by_cases h1 : v = 0 ∨ 3 < v
      · rw [if_pos h1] at hcfg
        cases hcfg
      · rw [if_neg h1] at hcfg
        by_cases h2 : v ≠ 2
        · rw [if_pos h2] at hcfg
          cases hcfg
        · omega
    · rintro rfl
      exact ⟨IndexConfig.mk 512 32 1 2, by rw [hred]; rfl⟩
  · rintro (rfl | rfl) <;> rw [hred] <;> rfl
  · intro h3
    rw [hred, if_pos h3]

/-- Claim C2 witness: value 1 is rejected by the `only two` check and value 5
by the range check, applying the amended theorem at concrete inputs. -/
theorem C2_accepts_only_pair_comb_witness :
    CreateIndexConfig [(kPivotCombQty, 1)] = Except.error onlyTwoCombMsg ∧
    CreateIndexConfig [(kPivotCombQty, 5)] = Except.error illegalCombMsg :=
  ⟨(C2_accepts_only_pair_comb 1).2.1 (Or.inl rfl),
   (C2_accepts_only_pair_comb 5).2.2 (Or.inr (by decide))⟩

/-- Claim C6 counterexample: a query with `num_prefix_search = 0` does not
complete with an empty candidate set; it aborts on the
`CHECK(num_prefix_search_ >= 1)` of the algorithm branch (lines 619, 685,
712, 739), so the re-ranking step is never reached. -/
theorem C6_query_aborts_concrete :
    GenSearch (IndexConfig.mk 4 4 1 2) (QueryConfig.mk false InvProcAlg.kStoreSort 2 0)
      [[], [], [], [], [], []] [0, 1, 2, 3] 2 = Except.error checkPrefixSearchMsg := rfl

/-- Claim C6 (amended): for every built index (which forces
`pivot_comb_qty_ = 2`) and every query with `num_prefix_search_ = 0`, the
query executor aborts with the `num_prefix_search_ >= 1` check failure
instead of completing with an empty candidate set. -/
theorem C6_zero_prefix_search_aborts (icfg : IndexConfig) (qcfg : QueryConfig)
    (posting : List (List Nat)) (perm_q : List Nat) (dataQty : Nat)
    (hcomb : IndexConfig.pivot_comb_qty_ icfg = 2)
    (hnps : QueryConfig.num_prefix_search_ qcfg = 0) :
    GenSearch icfg qcfg posting perm_q dataQty = Except.error checkPrefixSearchMsg := by
  unfold GenSearch
  rw [hcomb, hnps]
  rfl

/-- Claim C6 witness: the amended theorem applied at a concrete index,
query configuration and query. -/
theorem C6_zero_prefix_search_aborts_witness :
    GenSearch (IndexConfig.mk 4 4 1 2) (QueryConfig.mk false InvProcAlg.kScan 2 0)
      [[]] [0] 1 = Except.error checkPrefixSearchMsg :=
  C6_zero_prefix_search_aborts (IndexConfig.mk 4 4 1 2)
    (QueryConfig.mk false InvProcAlg.kScan 2 0) [[]] [0] 1 rfl rfl

/-- Claim C7 (code bug): for `pivot_comb_qty = 1` the encoder requires the
strict bound `permPrefixSize < perm.size()` (source line 492), so the prefix
length P = N is rejected although the claim (and the spec) permit P = N.
Concrete failing input: `skip_val_ = 1`, permutation `[0, 1, 2]` (N = 3),
P = 3: the encoder aborts on the CHECK instead of emitting `[0, 1, 2]`. -/
theorem C7_full_prefix_check_aborts :
    genPivotCombIds 1 1 [0, 1, 2] 3 = Except.error checkPrefixSizeMsg := rfl

/-- Claim C8 (code bug): `SetQueryTimeParams` reads `minTimes` into
`min_times_` and then immediately reads `numPivotSearch` into the same field
with the literal default 2 (source lines 280-281); when `numPivotSearch` is
absent, the default overwrites the supplied `minTimes` value.  With
`minTimes = 5` supplied and `numPivotSearch` absent, the resulting
`min_times_` is 2, not 5 as the claim requires. -/
theorem C8_minTimes_value_ignored :
    ∃ q, SetQueryTimeParams (IndexConfig.mk 512 32 1 2) [(kMinTimes, 5)] none =
        Except.ok q ∧
      QueryConfig.min_times_ q = 2 ∧ (2 : Nat) ≠ 5 :=
  ⟨QueryConfig.mk false InvProcAlg.kStoreSort 2 32, rfl, rfl, by decide⟩

/-- Claim C9: `CreateIndex` raises the synonym configuration error whenever
both `numPivotIndex` and `numPrefix` are supplied, whatever their values
(source lines 72-74 check only presence). -/
theorem C9_both_prefix_synonyms_rejected (ps : List (String × Nat))
    (h1 : hasParam ps kNumPivotIndex = true) (h2 : hasParam ps kNumPrefix = true) :
    CreateIndexConfig ps = Except.error synonymPrefixMsg := by
  unfold CreateIndexConfig
  rw [h1, h2]
  rfl

/-- Claim C9 witness: both synonyms supplied with the same value 32 are
still rejected. -/
theorem C9_both_prefix_synonyms_rejected_witness :
    CreateIndexConfig [(kNumPivotIndex, 32), (kNumPrefix, 32)] =
      Except.error synonymPrefixMsg :=
  C9_both_prefix_synonyms_rejected [(kNumPivotIndex, 32), (kNumPrefix, 32)] rfl rfl

/-- Claim C10: when the location's file can be opened, `SaveIndex` (line 339)
and `LoadIndex` (line 381) both reach an unconditional
`throw runtime_error(...)` before any field is written or read, so nothing is
persisted or restored and the index state is returned unchanged. -/
theorem C10_save_load_never_persist (st : IndexConfig) :
    SaveIndex st true = (st, Except.error notUpdatedMsg) ∧
    LoadIndex st true = (st, Except.error notUpdatedMsg) :=
  ⟨rfl, rfl⟩

/-- Claim C3 counterexample: with threshold 0 — reachable, since a build with
`numPrefix = 1` is accepted and yields
`thresh = min_times_ · (num_prefix_ − 1) / 2 = 0`, and a query with
`num_prefix_search_ = 1` emits no pair buckets — the `kScan` algorithm
returns every object of the dataset (its counter comparison `0 ≥ 0` holds for
every id), while `kStoreSort` returns nothing.  The candidate sets therefore
differ, refuting the claim for this built index and query. -/
theorem C3_zero_thresh_algorithms_differ :
    scanAlg (selectedLists [] []) 1 (threshCode 2 2 1) 1 ≠
      storeSortAlg (selectedLists [] []) 1 (threshCode 2 2 1) := by
  decide

/-- Claim C3 (amended): whenever the threshold is at least 1 and every
posting list referenced by the query is strictly ascending with ids below the
dataset size (the intended build invariant), the four inverted-file
processing algorithms return exactly the same candidate list. -/
theorem C3_four_algorithms_agree (posting : List (List Nat)) (combIds : List Nat)
    (s th dataQty : Nat)
    (hth : 1 ≤ th)
    (hsorted : ∀ c ∈ combIds, (posting.getD c []).Sorted (· < ·))
    (hids : ∀ c ∈ combIds, ∀ v ∈ posting.getD c [], v < dataQty) :
    (scanAlg (selectedLists posting combIds) s th dataQty =
      storeSortAlg (selectedLists posting combIds) s th) ∧
    (scanAlg (selectedLists posting combIds) s th dataQty =
      mergeAlg (selectedLists posting combIds) s th) ∧
    (scanAlg (selectedLists posting combIds) s th dataQty =
      priorQueueAlg (selectedLists posting combIds) s th) := by
  set sel := selectedLists posting combIds with hseldef
  have hsel : ∀ l ∈ sel, l.Sorted (· < ·) := by
    intro l hl
    rcases List.mem_map.mp hl with ⟨c, hc, rfl⟩
    exact hsorted c hc
  have hidsel : ∀ v ∈ sel.flatten, v < dataQty := by
    intro v hv
    rcases List.mem_flatten.mp hv with ⟨l, hl, hvl⟩
    rcases List.mem_map.mp hl with ⟨c, hc, rfl⟩
    exact hids c hc v hvl
  have hscan : ∀ v, v ∈ scanAlg sel s th dataQty ↔
      (v ∈ sel.flatten ∧ th ≤ accumCount sel s v) := by
    intro v
    rw [scanAlg_mem]
    constructor
    · rintro ⟨hvd, hth2⟩
      refine ⟨?_, hth2⟩
      have hpos : 0 < sel.flatten.count v := by
        by_contra h0
        have hzero : sel.flatten.count v = 0 := by omega
        unfold accumCount at hth2
        rw [hzero, Nat.mul_zero] at hth2
        omega
      exact List.count_pos_iff.mp hpos
    · rintro ⟨hf, hth2⟩
      exact ⟨hidsel v hf, hth2⟩
  have hss := storeSortAlg_spec sel s th
  have hmg := mergeAlg_spec sel s th hsel
  have hpq := priorQueueAlg_spec sel s th hsel
  refine ⟨?_, ?_, ?_⟩
  · apply sorted_lt_eq_of_mem_iff (scanAlg_sorted sel s th dataQty) hss.1
    intro v
    rw [hscan v, hss.2 v]
  · apply sorted_lt_eq_of_mem_iff (scanAlg_sorted sel s th dataQty) hmg.1
    intro v
    rw [hscan v, hmg.2 v]
  · apply sorted_lt_eq_of_mem_iff (scanAlg_sorted sel s th dataQty) hpq.1
    intro v
    rw [hscan v, hpq.2 v]

/-- Claim C3 witness: the amended theorem applied at a concrete index
(posting lists `[[0, 2], [1, 2]]`, both buckets selected, skip 1,
threshold 2, dataset size 3). -/
theorem C3_four_algorithms_agree_witness :
    (1 ≤ 2 ∧
     (∀ c ∈ ([0, 1] : List Nat),
        (([[0, 2], [1, 2]] : List (List Nat)).getD c []).Sorted (· < ·)) ∧
     (∀ c ∈ ([0, 1] : List Nat),
        ∀ v ∈ ([[0, 2], [1, 2]] : List (List Nat)).getD c [], v < 3)) ∧
    ((scanAlg (selectedLists [[0, 2], [1, 2]] [0, 1]) 1 2 3 =
       storeSortAlg (selectedLists [[0, 2], [1, 2]] [0, 1]) 1 2) ∧
     (scanAlg (selectedLists [[0, 2], [1, 2]] [0, 1]) 1 2 3 =
       mergeAlg (selectedLists [[0, 2], [1, 2]] [0, 1]) 1 2) ∧
     (scanAlg (selectedLists [[0, 2], [1, 2]] [0, 1]) 1 2 3 =
       priorQueueAlg (selectedLists [[0, 2], [1, 2]] [0, 1]) 1 2)) :=
  ⟨⟨by decide, by decide, by decide⟩,
   C3_four_algorithms_agree [[0, 2], [1, 2]] [0, 1] 1 2 3 (by decide) (by decide) (by decide)⟩

/-- Claim C4 counterexample: with threshold 0 (reachable as in the C3
counterexample) the claimed equivalence `admitted ↔ accumulated count ≥
thresh` fails for `kStoreSort`: object 0 of a one-object dataset has
accumulated count 0 ≥ 0 yet is not admitted. -/
theorem C4_zero_thresh_iff_fails :
    ¬ (0 ∈ storeSortAlg (selectedLists [] []) 1 (threshCode 2 2 1) ↔
        (0 < 1 ∧ threshCode 2 2 1 ≤ accumCount (selectedLists [] []) 1 0)) := by
  decide

/-- Claim C4 (amended): with a threshold of at least 1 and well-formed
posting lists, each of the four algorithms admits an object `v < dataQty` as
a candidate exactly when its accumulated count — the sum of `skip_val_` per
posting-list hit — reaches the threshold, and the threshold of the code
(GenSearch lines 604-610) equals the claimed formulas: `min_times_` for
k = 1, `min_times_ · (num_prefix_ − 1) / 2` for k = 2, and
`min_times_ · (num_prefix_ − 1) · (num_prefix_ − 2) / 6` for k = 3. -/
theorem C4_candidates_iff_thresh (posting : List (List Nat)) (combIds : List Nat)
    (s mt np cq dataQty : Nat)
    (hth : 1 ≤ threshCode cq mt np)
    (hsorted : ∀ c ∈ combIds, (posting.getD c []).Sorted (· < ·))
    (hids : ∀ c ∈ combIds, ∀ v ∈ posting.getD c [], v < dataQty) :
    ((cq = 1 → threshCode cq mt np = mt) ∧
     (cq = 2 → threshCode cq mt np = mt * (np - 1) / 2) ∧
     (cq = 3 → threshCode cq mt np = mt * (np - 1) * (np - 2) / 6)) ∧
    (∀ v, v ∈ scanAlg (selectedLists posting combIds) s (threshCode cq mt np) dataQty ↔
       (v < dataQty ∧ threshCode cq mt np ≤ accumCount (selectedLists posting combIds) s v)) ∧
    (∀ v, v ∈ storeSortAlg (selectedLists posting combIds) s (threshCode cq mt np) ↔
       (v < dataQty ∧ threshCode cq mt np ≤ accumCount (selectedLists posting combIds) s v)) ∧
    (∀ v, v ∈ mergeAlg (selectedLists posting combIds) s (threshCode cq mt np) ↔
       (v < dataQty ∧ threshCode cq mt np ≤ accumCount (selectedLists posting combIds) s v)) ∧
    (∀ v, v ∈ priorQueueAlg (selectedLists posting combIds) s (threshCode cq mt np) ↔
       (v < dataQty ∧ threshCode cq mt np ≤ accumCount (selectedLists posting combIds) s v)) := by
  set th := threshCode cq mt np with hthdef
  set sel := selectedLists posting combIds with hseldef
  have hsel : ∀ l ∈ sel, l.Sorted (· < ·) := by
    intro l hl
    rcases List.mem_map.mp hl with ⟨c, hc, rfl⟩
    exact hsorted c hc
  have hidsel : ∀ v ∈ sel.flatten, v < dataQty := by
    intro v hv
    rcases List.mem_flatten.mp hv with ⟨l, hl, hvl⟩
    rcases List.mem_map.mp hl with ⟨c, hc, rfl⟩
    exact hids c hc v hvl
  have hbridge : ∀ v, (v ∈ sel.flatten ∧ th ≤ accumCount sel s v) ↔
      (v < dataQty ∧ th ≤ accumCount sel s v) := by
    intro v
    constructor
    · rintro ⟨hf, hth2⟩
      exact ⟨hidsel v hf, hth2⟩
    · rintro ⟨hvd, hth2⟩
      refine ⟨?_, hth2⟩
      have hpos : 0 < sel.flatten.count v := by
        by_contra h0
        have hzero : sel.flatten.count v = 0 := by omega
        unfold accumCount at hth2
        rw [hzero, Nat.mul_zero] at hth2
        omega
      exact List.count_pos_iff.mp hpos
  refine ⟨⟨?_, ?_, ?_⟩, ?_, ?_, ?_, ?_⟩
  · intro h1
    rw [hthdef, h1]
    rfl
  · intro h2
    rw [hthdef, h2]
    rfl
  · intro h3
    rw [hthdef, h3]
    rfl
  · intro v
    rw [scanAlg_mem]
  · intro v
    rw [(storeSortAlg_spec sel s th).2 v, hbridge v]
  · intro v
    rw [(mergeAlg_spec sel s th hsel).2 v, hbridge v]
  · intro v
    rw [(priorQueueAlg_spec sel s th hsel).2 v, hbridge v]

/-- Claim C4 witness: the amended theorem applied at a concrete index and
query (k = 2, min_times 2, num_prefix 3, so the threshold is 2). -/
theorem C4_candidates_iff_thresh_witness :
    (1 ≤ threshCode 2 2 3 ∧
     (∀ c ∈ ([0, 1] : List Nat),
        (([[0, 2], [1, 2]] : List (List Nat)).getD c []).Sorted (· < ·)) ∧
     (∀ c ∈ ([0, 1] : List Nat),
        ∀ v ∈ ([[0, 2], [1, 2]] : List (List Nat)).getD c [], v < 3)) ∧
    (∀ v, v ∈ scanAlg (selectedLists [[0, 2], [1, 2]] [0, 1]) 1 (threshCode 2 2 3) 3 ↔
       (v < 3 ∧ threshCode 2 2 3 ≤ accumCount (selectedLists [[0, 2], [1, 2]] [0, 1]) 1 v)) :=
  ⟨⟨by decide, by decide, by decide⟩,
   (C4_candidates_iff_thresh [[0, 2], [1, 2]] [0, 1] 1 2 3 2 3
     (by decide) (by decide) (by decide)).2.1⟩

/-! ### Claim C5: exactness of the pair-key enumeration -/

lemma flatMap_filterMap (l : List Nat) (g : Nat → List (Nat × Nat))
    (F : Nat × Nat → Option Nat) :
    (l.flatMap (fun j => (g j).filterMap F)) = (l.flatMap g).filterMap F := by
  induction l with
  | nil => rfl
  | cons a t ih =>
    rw [List.flatMap_cons, List.flatMap_cons, List.filterMap_append, ih]

lemma mem_pairEnum (P a b : Nat) :
    ((a, b) ∈ (List.range P).flatMap (fun j => (List.range j).map (fun k => (k, j)))) ↔
      (a < b ∧ b < P) := by
  rw [List.mem_flatMap]
  constructor
  · rintro ⟨j, hj, hab⟩
    rcases List.mem_map.mp hab with ⟨k, hk, hkj⟩
    have h1 : k = a := by
      have := congrArg Prod.fst hkj
      simpa using this
    have h2 : j = b := by
      have := congrArg Prod.snd hkj
      simpa using this
    subst h1
    subst h2
    exact ⟨List.mem_range.mp hk, List.mem_range.mp hj⟩
  · rintro ⟨h1, h2⟩
    refine ⟨b, List.mem_range.mpr h2, ?_⟩
    exact List.mem_map.mpr ⟨a, List.mem_range.mpr h1, rfl⟩

lemma nodup_pairEnum (P : Nat) :
    ((List.range P).flatMap (fun j => (List.range j).map (fun k => (k, j)))).Nodup := by
  rw [List.nodup_flatMap]
  constructor
  · intro j _
    apply List.Nodup.map
    · intro x y hxy
      have := congrArg Prod.fst hxy
      simpa using this
    · exact List.nodup_range j
  · apply List.Pairwise.imp ?_ (List.pairwise_lt_range P)
    intro i j hij
    intro x hxi hxj
    rcases List.mem_map.mp hxi with ⟨k1, _, hk1⟩
    rcases List.mem_map.mp hxj with ⟨k2, _, hk2⟩
    have hsi : x.2 = i := by
      have := congrArg Prod.snd hk1
      simpa using this.symm
    have hsj : x.2 = j := by
      have := congrArg Prod.snd hk2
      simpa using this.symm
    omega

/-- Claim C5: for k = 2 the encoder succeeds and emits exactly the multiset
of keys `PAIR(perm[b], perm[a]) / skip_val_` over the unordered pairs
0 ≤ a < b < P whose index is divisible by `skip_val_`, and the returned
count is the number of keys written (the length of the emitted list). -/
theorem C5_pair_encoder_exact (skip_val_ : Nat) (perm : List Nat) (P : Nat)
    (hP : P ≤ perm.length) :
    ∃ ks, genPivotCombIds 2 skip_val_ perm P = Except.ok ks ∧
      (↑ks : Multiset Nat) = pairKeySpec skip_val_ perm P ∧
      ks.length = Multiset.card (pairKeySpec skip_val_ perm P) := by
  refine ⟨(List.range P).flatMap (fun j =>
    (List.range j).filterMap (fun k =>
      if PostingListIndex (perm.getD j 0) (perm.getD k 0) % skip_val_ = 0
      then some (PostingListIndex (perm.getD j 0) (perm.getD k 0) / skip_val_)
      else none)), rfl, ?_, ?_⟩
  all_goals
    have hstep1 : (List.range P).flatMap (fun j =>
        (List.range j).filterMap (fun k =>
          if PostingListIndex (perm.getD j 0) (perm.getD k 0) % skip_val_ = 0
          then some (PostingListIndex (perm.getD j 0) (perm.getD k 0) / skip_val_)
          else none)) =
        ((List.range P).flatMap (fun j => (List.range j).map (fun k => (k, j)))).filterMap
          (fun ab =>
            if PostingListIndex (perm.getD ab.2 0) (perm.getD ab.1 0) % skip_val_ = 0
            then some (PostingListIndex (perm.getD ab.2 0) (perm.getD ab.1 0) / skip_val_)
            else none) := by
      rw [← flatMap_filterMap]
      simp only [List.filterMap_map]
      rfl
  all_goals
    have hval : (↑((List.range P).flatMap (fun j => (List.range j).map (fun k => (k, j)))) :
          Multiset (Nat × Nat)) =
        (((Finset.range P) ×ˢ (Finset.range P)).filter (fun ab => ab.1 < ab.2)).val := by
      rw [Multiset.Nodup.ext (Multiset.coe_nodup.mpr (nodup_pairEnum P))
        (Finset.nodup _)]
      rintro ⟨a, b⟩
      rw [Multiset.mem_coe, Finset.mem_val, Finset.mem_filter, Finset.mem_product]
      rw [mem_pairEnum]
      simp only [Finset.mem_range]
      constructor
      · rintro ⟨h1, h2⟩
        exact ⟨⟨by omega, h2⟩, h1⟩
      · rintro ⟨⟨_, h2⟩, h1⟩
        exact ⟨h1, h2⟩
  all_goals
    have hmain : (↑((List.range P).flatMap (fun j =>
        (List.range j).filterMap (fun k =>
          if PostingListIndex (perm.getD j 0) (perm.getD k 0) % skip_val_ = 0
          then some (PostingListIndex (perm.getD j 0) (perm.getD k 0) / skip_val_)
          else none))) : Multiset Nat) = pairKeySpec skip_val_ perm P := by
      rw [hstep1, ← Multiset.filterMap_coe, hval]
      rfl
  · exact hmain
  · have hcard := congrArg Multiset.card hmain
    rw [Multiset.coe_card] at hcard
    exact hcard

/-- Claim C5 witness: the theorem applied at the concrete permutation
`[2, 0, 1]` with P = 3 and skip 1. -/
theorem C5_pair_encoder_exact_witness :
    (3 ≤ ([2, 0, 1] : List Nat).length) ∧
    (∃ ks, genPivotCombIds 2 1 [2, 0, 1] 3 = Except.ok ks ∧
      (↑ks : Multiset Nat) = pairKeySpec 1 [2, 0, 1] 3 ∧
      ks.length = Multiset.card (pairKeySpec 1 [2, 0, 1] 3)) :=
  ⟨by decide, C5_pair_encoder_exact 1 [2, 0, 1] 3 (by decide)⟩
